import Mathlib

/-! A shallow embedding of the Chip-8 emulator core.

The C sources embedded here are `chip8.c`, `chip8memory.c`, `chip8stack.c`,
`chip8screen.c` and `chip8keyboard.c`.

Conventions of the embedding:

* a C array is a function from the index to the element; an access the source
  guards with `assert` is a `chip8_error.assertion_failure` when the guard
  fails, and an access the source does not guard is a
  `chip8_error.undefined_behaviour` when the index is outside the array;
* an unsigned machine integer is a `Nat`, reduced modulo `2 ^ w` wherever the
  source does arithmetic on it or narrows it; an `int` is an `Int`;
* a `const char*` the source only reads through is the function giving the
  byte at each offset.
-/

namespace Chip8

/-! ## Constants and types declared in the headers -/

/-- Modelled from the spec: the header declaring `CHIP8_MEMORY_SIZE` is not among
the sources; the spec gives the memory a fixed capacity of 4096 bytes. -/
def CHIP8_MEMORY_SIZE : Nat := 4096

/-- Modelled from the spec: the header declaring `CHIP8_WIDTH` is not among the
sources; the spec gives the screen a width of 64 pixels. -/
def CHIP8_WIDTH : Nat := 64

/-- Modelled from the spec: the header declaring `CHIP8_HEIGHT` is not among the
sources; the spec gives the screen a height of 32 pixels. -/
def CHIP8_HEIGHT : Nat := 32

/-- Modelled from the spec: the header declaring `CHIP8_TOTAL_KEYS` is not among
the sources; the spec gives the keyboard 16 keys, indexed 0..15. -/
def CHIP8_TOTAL_KEYS : Nat := 16

/-- Modelled from the spec: the header declaring `CHIP8_TOTAL_STACK_DEPTH` is not
among the sources; the spec leaves the depth to the implementer and names 16 as
the conventional one. -/
def CHIP8_TOTAL_STACK_DEPTH : Nat := 16

/-- Modelled from the spec: the header declaring `CHIP8_PROGRAM_LOAD_ADDRESS` is
not among the sources; the spec gives the fixed load address 0x200. -/
def CHIP8_PROGRAM_LOAD_ADDRESS : Nat := 0x200

/-- Modelled from the spec: the header declaring `CHIP8_DEFAULT_SPRITE_HEIGHT` is
not among the sources; the spec gives the font 5 bytes per symbol. -/
def CHIP8_DEFAULT_SPRITE_HEIGHT : Nat := 5

/-- Modelled from the spec: the declaration of `stack.stack` is not among the
sources; the spec makes each return address 16 bits wide, so that
`sizeof(chip8->stack.stack)` is twice the depth. -/
def SIZEOF_STACK : Nat := 2 * CHIP8_TOTAL_STACK_DEPTH

/-- Modelled from the spec: the declaration of the register `SP` is not among the
sources; the spec only calls it unsigned, and the narrowest unsigned type, one
byte, is taken here. -/
def SP_MODULUS : Nat := 256

/-- The number of values of a `size_t` (64 bits). -/
def SIZE_T_MODULUS : Nat := 2 ^ 64

/-- The two ways a run of the C code stops without returning. -/
inductive chip8_error where
  /-- an `assert` failed: the process aborts -/
  | assertion_failure
  /-- an unguarded access left its array: C gives the run no meaning -/
  | undefined_behaviour
  deriving DecidableEq

/-- The memory: `unsigned char memory[CHIP8_MEMORY_SIZE]`. -/
structure chip8_memory where
  memory : Nat → Nat

/-- The registers: sixteen bytes `V`, the 16-bit `I` and `PC`, the two 8-bit
timers and the stack pointer. -/
structure chip8_registers where
  V : Nat → Nat
  I : Nat
  delay_timer : Nat
  sound_timer : Nat
  PC : Nat
  SP : Nat

/-- The stack: `unsigned short stack[CHIP8_TOTAL_STACK_DEPTH]`. -/
structure chip8_stack where
  stack : Nat → Nat

/-- The keyboard: `bool keyboard[CHIP8_TOTAL_KEYS]` and the pointer to the
installed mapping table (`none` is the null pointer). -/
structure chip8_keyboard where
  keyboard : Nat → Bool
  keyboard_map : Option (Nat → Int)

/-- The screen: `bool pixels[CHIP8_HEIGHT][CHIP8_WIDTH]`, row first. -/
structure chip8_screen where
  pixels : Nat → Nat → Bool

/-- The virtual machine: `struct chip8`. -/
structure chip8 where
  memory : chip8_memory
  registers : chip8_registers
  stack : chip8_stack
  keyboard : chip8_keyboard
  screen : chip8_screen

/-- What the host supplies to an instruction that asks for it: the value `rand()`
returns at a `Cxkk`, and the 32-bit SDL key codes (`event.key.keysym.sym`) of the
`SDL_KEYDOWN` events that `SDL_WaitEvent` delivers at an `Fx0A` before it fails. -/
structure host where
  rand : Nat
  keydowns : List Int

/-! ## chip8memory.c -/

/-- The guard `assert(index >= 0 && index < CHIP8_MEMORY_SIZE)`. -/
def chip8_is_memory_in_bounds (index : Int) : Except chip8_error Unit :=
  if 0 ≤ index ∧ index < (CHIP8_MEMORY_SIZE : Int) then .ok ()
  else .error .assertion_failure

/-- The source's `chip8_memory_set`: guard, then `memory->memory[index] = value`. -/
def chip8_memory_set (m : chip8_memory) (index : Int) (value : Nat) :
    Except chip8_error chip8_memory :=
  match chip8_is_memory_in_bounds index with
  | .error e => .error e
  | .ok _ => .ok ⟨fun i => if i = index.toNat then value else m.memory i⟩

/-- The source's `chip8_memory_get`: guard, then `return memory->memory[index]`. -/
def chip8_memory_get (m : chip8_memory) (index : Int) : Except chip8_error Nat :=
  match chip8_is_memory_in_bounds index with
  | .error e => .error e
  | .ok _ => .ok (m.memory index.toNat)

/-- The source's `chip8_memory_get_short`: two guarded reads, then
`byte1 << 8 | byte2` narrowed to `unsigned short`. -/
def chip8_memory_get_short (m : chip8_memory) (index : Int) : Except chip8_error Nat :=
  match chip8_memory_get m index with
  | .error e => .error e
  | .ok byte1 =>
    match chip8_memory_get m (index + 1) with
    | .error e => .error e
    | .ok byte2 => .ok ((byte1 <<< 8 ||| byte2) % 65536)

/-! ## chip8stack.c -/

/-- The guard `assert(chip8->registers.SP < sizeof(chip8->stack.stack))`. -/
def chip8_is_stack_in_bounds (s : chip8) : Except chip8_error Unit :=
  if s.registers.SP < SIZEOF_STACK then .ok () else .error .assertion_failure

/-- The source's `chip8_stack_push`: `SP += 1`, guard, `stack[SP] = val`. The
store is outside the array when the guard lets an `SP` of the depth or more
through. -/
def chip8_stack_push (s : chip8) (val : Nat) : Except chip8_error chip8 :=
  let s1 : chip8 :=
    { s with registers := { s.registers with SP := (s.registers.SP + 1) % SP_MODULUS } }
  match chip8_is_stack_in_bounds s1 with
  | .error e => .error e
  | .ok _ =>
    if s1.registers.SP < CHIP8_TOTAL_STACK_DEPTH then
      .ok { s1 with
        stack := ⟨fun i => if i = s1.registers.SP then val else s1.stack.stack i⟩ }
    else .error .undefined_behaviour

/-- The source's `chip8_stack_pop`: guard, `result = stack[SP]`, `SP -= 1`,
`return result`. The read is outside the array when the guard lets an `SP` of the
depth or more through. -/
def chip8_stack_pop (s : chip8) : Except chip8_error (Nat × chip8) :=
  match chip8_is_stack_in_bounds s with
  | .error e => .error e
  | .ok _ =>
    if s.registers.SP < CHIP8_TOTAL_STACK_DEPTH then
      let result := s.stack.stack s.registers.SP
      .ok (result,
        { s with registers :=
          { s.registers with SP := (s.registers.SP + SP_MODULUS - 1) % SP_MODULUS } })
    else .error .undefined_behaviour

/-! ## chip8keyboard.c -/

/-- The guard `assert(key >= 0 && key < CHIP8_TOTAL_KEYS)`. -/
def chip8_keyboard_in_bounds (key : Int) : Except chip8_error Unit :=
  if 0 ≤ key ∧ key < (CHIP8_TOTAL_KEYS : Int) then .ok () else .error .assertion_failure

/-- The narrowing of an `int` to `char`, a signed byte: the value in -128..127
that differs from it by a multiple of 256. -/
def to_char (v : Int) : Int := (v + 128) % 256 - 128

/-- The loop of `chip8_keyboard_map`, with `i` the loop variable and `fuel` the
number of iterations left: the first `i` whose table entry is `key`, else `-1`. -/
def chip8_keyboard_map_loop (table : Nat → Int) (key : Int) : Nat → Nat → Int
  | _, 0 => -1
  | i, fuel + 1 =>
    if table i = key then (i : Int) else chip8_keyboard_map_loop table key (i + 1) fuel

/-- The source's `chip8_keyboard_map`: a linear search of the installed table. The
parameter is `char key`, so the argument of a call is narrowed to a `char` before
the search; the entries of the table are `char` values. It reads through the table
pointer, which must not be null. -/
def chip8_keyboard_map (k : chip8_keyboard) (key : Int) : Except chip8_error Int :=
  match k.keyboard_map with
  | none => .error .undefined_behaviour
  | some table => .ok (chip8_keyboard_map_loop table (to_char key) 0 CHIP8_TOTAL_KEYS)

/-- The source's `chip8_keyboard_down`: guard, then `keyboard[key] = true`. -/
def chip8_keyboard_down (k : chip8_keyboard) (key : Int) :
    Except chip8_error chip8_keyboard :=
  match chip8_keyboard_in_bounds key with
  | .error e => .error e
  | .ok _ => .ok { k with keyboard := fun i => if i = key.toNat then true else k.keyboard i }

/-- The source's `chip8_keyboard_up`: guard, then `keyboard[key] = false`. -/
def chip8_keyboard_up (k : chip8_keyboard) (key : Int) :
    Except chip8_error chip8_keyboard :=
  match chip8_keyboard_in_bounds key with
  | .error e => .error e
  | .ok _ => .ok { k with keyboard := fun i => if i = key.toNat then false else k.keyboard i }

/-- The source's `chip8_keyboard_is_down`: `return keyboard->keyboard[key]`, with
no guard; the read is outside the array for a key outside 0..15. -/
def chip8_keyboard_is_down (k : chip8_keyboard) (key : Int) : Except chip8_error Bool :=
  if 0 ≤ key ∧ key < (CHIP8_TOTAL_KEYS : Int) then .ok (k.keyboard key.toNat)
  else .error .undefined_behaviour

/-! ## chip8screen.c -/

/-- The source's `chip8_screen_clear`: every pixel becomes false. -/
def chip8_screen_clear (_screen : chip8_screen) : chip8_screen :=
  ⟨fun _ _ => false⟩

/-- The guard `assert(x >= 0 && x < CHIP8_WIDTH && y >= 0 && y < CHIP8_HEIGHT)`. -/
def chip8_screen_in_bounds (x y : Int) : Except chip8_error Unit :=
  if 0 ≤ x ∧ x < (CHIP8_WIDTH : Int) ∧ 0 ≤ y ∧ y < (CHIP8_HEIGHT : Int) then .ok ()
  else .error .assertion_failure

/-- The source's `chip8_screen_set`: guard, then `pixels[y][x] = true`. -/
def chip8_screen_set (screen : chip8_screen) (x y : Int) : Except chip8_error chip8_screen :=
  match chip8_screen_in_bounds x y with
  | .error e => .error e
  | .ok _ =>
    .ok ⟨fun i j => if i = y.toNat ∧ j = x.toNat then true else screen.pixels i j⟩

/-- The source's `chip8_screen_is_set`: guard, then `return pixels[y][x]`. -/
def chip8_screen_is_set (screen : chip8_screen) (x y : Int) : Except chip8_error Bool :=
  match chip8_screen_in_bounds x y with
  | .error e => .error e
  | .ok _ => .ok (screen.pixels y.toNat x.toNat)

/-- The body of the inner loop of `chip8_screen_draw_sprite` for the sprite byte `c`
of row `ly` at bit `lx`, on the pair of the screen and `pixel_collision`: nothing
when `(c & (0x80 >> lx)) == 0`; otherwise the collision flag is raised when the
addressed pixel is set, and then the pixel is toggled. The mask never exceeds
0x80, so the test sees only the low eight bits of `c`, here the byte as an
unsigned value. -/
def chip8_screen_draw_sprite_bit (x y c ly lx : Nat) (st : chip8_screen × Bool) :
    chip8_screen × Bool :=
  if c &&& (0x80 >>> lx) = 0 then st
  else
    let row := (y + ly) % CHIP8_HEIGHT
    let col := (x + lx) % CHIP8_WIDTH
    let pixel_collision := if st.1.pixels row col then true else st.2
    (⟨fun i j => if i = row ∧ j = col then xor (st.1.pixels i j) true else st.1.pixels i j⟩,
      pixel_collision)

/-- The inner loop `for (lx = 0; lx < 8; lx++)` for the sprite byte `c` of row `ly`. -/
def chip8_screen_draw_sprite_row (x y c ly : Nat) (st : chip8_screen × Bool) :
    chip8_screen × Bool :=
  (List.range 8).foldl (fun acc lx => chip8_screen_draw_sprite_bit x y c ly lx acc) st

/-- The source's `chip8_screen_draw_sprite`: the outer loop
`for (ly = 0; ly < length; ly++)` with `c = sprite[ly]`, started with
`pixel_collision = false`; the result is the screen and the returned flag. The
coordinates and the length are the non-negative values of the `int` parameters. -/
def chip8_screen_draw_sprite (screen : chip8_screen) (x y : Nat) (sprite : Nat → Nat)
    (length : Nat) : chip8_screen × Bool :=
  (List.range length).foldl
    (fun acc ly => chip8_screen_draw_sprite_row x y (sprite ly) ly acc) (screen, false)

/-! ## chip8.c -/

/-- The source's `chip8_default_character_set`: five bytes for each of the
characters 0 to F. -/
def chip8_default_character_set : List Nat :=
  [0xf0, 0x90, 0x90, 0x90, 0xf0,
   0x20, 0x60, 0x20, 0x20, 0x70,
   0xf0, 0x10, 0xf0, 0x80, 0xf0,
   0xf0, 0x10, 0xf0, 0x10, 0xf0,
   0x90, 0x90, 0xf0, 0x10, 0x10,
   0xf0, 0x80, 0xf0, 0x10, 0xf0,
   0xf0, 0x80, 0xf0, 0x90, 0xf0,
   0xf0, 0x10, 0x20, 0x40, 0x40,
   0xf0, 0x90, 0xf0, 0x90, 0xf0,
   0xf0, 0x90, 0xf0, 0x10, 0xf0,
   0xf0, 0x90, 0xf0, 0x90, 0x90,
   0xe0, 0x90, 0xe0, 0x90, 0xe0,
   0xf0, 0x80, 0x80, 0x80, 0xf0,
   0xe0, 0x90, 0x90, 0x90, 0xe0,
   0xf0, 0x80, 0xf0, 0x80, 0xf0,
   0xf0, 0x80, 0xf0, 0x80, 0x80]

/-- The source's `chip8_init`: the whole struct is zeroed, whatever it held, and
the character set is copied to the start of the memory. -/
def chip8_init (_chip8 : chip8) : chip8 :=
  { memory := ⟨fun i => chip8_default_character_set.getD i 0⟩
    registers := { V := fun _ => 0, I := 0, delay_timer := 0, sound_timer := 0, PC := 0, SP := 0 }
    stack := ⟨fun _ => 0⟩
    keyboard := { keyboard := fun _ => false, keyboard_map := none }
    screen := ⟨fun _ _ => false⟩ }

/-- The source's `chip8_load`: `assert((CHIP8_PROGRAM_LOAD_ADDRESS + size) <
CHIP8_MEMORY_SIZE)` with the sum taken in `size_t`, then the copy of `size` bytes of
`buffer` to the load address, then `PC = CHIP8_PROGRAM_LOAD_ADDRESS`. The copy
leaves the memory only if the sum wrapped around. -/
def chip8_load (s : chip8) (buffer : Nat → Nat) (size : Nat) : Except chip8_error chip8 :=
  if (CHIP8_PROGRAM_LOAD_ADDRESS + size) % SIZE_T_MODULUS < CHIP8_MEMORY_SIZE then
    if CHIP8_PROGRAM_LOAD_ADDRESS + size ≤ CHIP8_MEMORY_SIZE then
      .ok { s with
        memory := ⟨fun i =>
          if CHIP8_PROGRAM_LOAD_ADDRESS ≤ i ∧ i < CHIP8_PROGRAM_LOAD_ADDRESS + size
          then buffer (i - CHIP8_PROGRAM_LOAD_ADDRESS) else s.memory.memory i⟩
        registers := { s.registers with PC := CHIP8_PROGRAM_LOAD_ADDRESS } }
    else .error .undefined_behaviour
  else .error .assertion_failure

/-- The source's `chip8_wait_for_key_press`, over the SDL key codes of the key-down
events delivered: each is narrowed by `char c = event.key.keysym.sym` and mapped,
the result narrowed by `char chip8_key = ...`; the first one the keyboard maps is
returned as its virtual key; `-1` when `SDL_WaitEvent` fails first. -/
def chip8_wait_for_key_press (s : chip8) : List Int → Except chip8_error Int
  | [] => .ok (-1)
  | sym :: rest =>
    let c := to_char sym
    match chip8_keyboard_map s.keyboard c with
    | .error e => .error e
    | .ok mapped =>
      let chip8_key := to_char mapped
      if chip8_key ≠ -1 then .ok chip8_key else chip8_wait_for_key_press s rest

/-- The assignment `chip8->registers.V[i] = v`. -/
def set_V (s : chip8) (i v : Nat) : chip8 :=
  { s with registers := { s.registers with V := fun j => if j = i then v else s.registers.V j } }

/-- The assignment `chip8->registers.PC = v`. -/
def set_PC (s : chip8) (v : Nat) : chip8 :=
  { s with registers := { s.registers with PC := v } }

/-- The assignment `chip8->registers.I = v`. -/
def set_I (s : chip8) (v : Nat) : chip8 :=
  { s with registers := { s.registers with I := v } }

/-- The narrowing of an `int` to `unsigned char`. -/
def to_uchar (v : Int) : Nat := (v % 256).toNat

/-- The narrowing of an `int` to `unsigned short`. -/
def to_ushort (v : Int) : Nat := (v % 65536).toNat

/-- The statement `chip8->registers.PC += 2`. -/
def skip (s : chip8) : chip8 := set_PC s (to_ushort ((s.registers.PC : Int) + 2))

/-- The loop of `Fx55`, `for (i = 0; i <= x; i++) chip8_memory_set(memory, I + i,
V[i])`, with `i` the loop variable and `fuel` the number of iterations left. -/
def store_registers (s : chip8) : Nat → Nat → Except chip8_error chip8
  | _, 0 => .ok s
  | i, fuel + 1 =>
    match chip8_memory_set s.memory ((s.registers.I : Int) + i) (s.registers.V i) with
    | .error e => .error e
    | .ok m => store_registers { s with memory := m } (i + 1) fuel

/-- The loop of `Fx65`, `for (i = 0; i <= x; i++) V[i] = chip8_memory_get(memory,
I + i)`, with `i` the loop variable and `fuel` the number of iterations left. -/
def load_registers (s : chip8) : Nat → Nat → Except chip8_error chip8
  | _, 0 => .ok s
  | i, fuel + 1 =>
    match chip8_memory_get s.memory ((s.registers.I : Int) + i) with
    | .error e => .error e
    | .ok v => load_registers (set_V s i v) (i + 1) fuel

/-- The block `case 0x8000` of `chip8_exec_extended`: the switch on
`opcode & 0x000f`. -/
def chip8_exec_extended_8 (s : chip8) (opcode x y : Nat) : Except chip8_error chip8 :=
  let sel := opcode &&& 0x000f
  if sel = 0x00 then .ok (set_V s x (s.registers.V y))
  else if sel = 0x01 then .ok (set_V s x (s.registers.V x ||| s.registers.V y))
  else if sel = 0x02 then .ok (set_V s x (s.registers.V x &&& s.registers.V y))
  else if sel = 0x03 then .ok (set_V s x (s.registers.V x ^^^ s.registers.V y))
  else if sel = 0x04 then
    let res := to_ushort ((s.registers.V x : Int) + s.registers.V y)
    let s1 := set_V s 0x0f 0x00
    let s2 := if res > 0xff then set_V s1 0x0f 0x01 else s1
    .ok (set_V s2 x (to_uchar res))
  else if sel = 0x05 then
    let s1 := set_V s 0x0f 0x00
    let s2 := if s1.registers.V x > s1.registers.V y then set_V s1 0x0f 0x01 else s1
    .ok (set_V s2 x (to_uchar ((s2.registers.V x : Int) - s2.registers.V y)))
  else if sel = 0x06 then
    let s1 := set_V s 0x0f (s.registers.V x &&& 0x01)
    .ok (set_V s1 x (s1.registers.V x / 2))
  else if sel = 0x07 then
    let s1 := set_V s 0x0f (if s.registers.V y > s.registers.V x then 1 else 0)
    .ok (set_V s1 x (to_uchar ((s1.registers.V y : Int) - s1.registers.V x)))
  else if sel = 0x08 then
    let s1 := set_V s 0x0f (s.registers.V x &&& 0x80)
    .ok (set_V s1 x (to_uchar ((s1.registers.V x : Int) * 2)))
  else .ok s

/-- The block `case 0xE000` of `chip8_exec_extended`: the switch on
`opcode & 0x00ff`. The register byte `V[x]` is passed as the `int` key. -/
def chip8_exec_extended_E (s : chip8) (opcode x : Nat) : Except chip8_error chip8 :=
  let sel := opcode &&& 0x00ff
  if sel = 0x9e then
    match chip8_keyboard_is_down s.keyboard (s.registers.V x : Int) with
    | .error e => .error e
    | .ok down => .ok (if down then skip s else s)
  else if sel = 0xa1 then
    match chip8_keyboard_is_down s.keyboard (s.registers.V x : Int) with
    | .error e => .error e
    | .ok down => .ok (if !down then skip s else s)
  else .ok s

/-- The block `case 0xF000` of `chip8_exec_extended`: the switch on
`opcode & 0x00ff`. -/
def chip8_exec_extended_F (h : host) (s : chip8) (opcode x : Nat) : Except chip8_error chip8 :=
  let sel := opcode &&& 0x00ff
  if sel = 0x07 then .ok (set_V s x s.registers.delay_timer)
  else if sel = 0x0a then
    match chip8_wait_for_key_press s h.keydowns with
    | .error e => .error e
    | .ok pressed_key => .ok (set_V s x (to_uchar pressed_key))
  else if sel = 0x15 then
    .ok { s with registers := { s.registers with delay_timer := s.registers.V x } }
  else if sel = 0x18 then
    .ok { s with registers := { s.registers with sound_timer := s.registers.V x } }
  else if sel = 0x1e then
    .ok (set_I s (to_ushort ((s.registers.I : Int) + s.registers.V x)))
  else if sel = 0x29 then
    .ok (set_I s (to_ushort ((s.registers.V x : Int) * CHIP8_DEFAULT_SPRITE_HEIGHT)))
  else if sel = 0x33 then
    let hundreds := to_uchar ((s.registers.V x : Int) / 100)
    let tens := to_uchar ((s.registers.V x : Int) / 10 % 10)
    let units := to_uchar ((s.registers.V x : Int) % 10)
    match chip8_memory_set s.memory (s.registers.I : Int) hundreds with
    | .error e => .error e
    | .ok m1 =>
      match chip8_memory_set m1 ((s.registers.I : Int) + 1) tens with
      | .error e => .error e
      | .ok m2 =>
        match chip8_memory_set m2 ((s.registers.I : Int) + 2) units with
        | .error e => .error e
        | .ok m3 => .ok { s with memory := m3 }
  else if sel = 0x55 then store_registers s 0 (x + 1)
  else if sel = 0x65 then load_registers s 0 (x + 1)
  else .ok s

/-- The source's `chip8_exec_extended`: the fields of the opcode, then the switch
on `opcode & 0xf000`. The sprite of a `Dxyn` is read from the memory at `I`; the
read leaves the memory when `I + n` exceeds its size. -/
def chip8_exec_extended (h : host) (s : chip8) (opcode : Nat) : Except chip8_error chip8 :=
  let nnn := opcode &&& 0x0fff
  let x := (opcode &&& 0x0f00) >>> 8
  let y := (opcode &&& 0x00f0) >>> 4
  let kk := opcode &&& 0x00ff
  let n := opcode &&& 0x000f
  let family := opcode &&& 0xf000
  if family = 0x1000 then .ok (set_PC s nnn)
  else if family = 0x2000 then
    match chip8_stack_push s s.registers.PC with
    | .error e => .error e
    | .ok s1 => .ok (set_PC s1 nnn)
  else if family = 0x3000 then .ok (if s.registers.V x = kk then skip s else s)
  else if family = 0x4000 then .ok (if s.registers.V x ≠ kk then skip s else s)
  else if family = 0x5000 then
    .ok (if s.registers.V x = s.registers.V y then skip s else s)
  else if family = 0x6000 then .ok (set_V s x kk)
  else if family = 0x7000 then .ok (set_V s x (to_uchar ((s.registers.V x : Int) + kk)))
  else if family = 0x8000 then chip8_exec_extended_8 s opcode x y
  else if family = 0x9000 then
    .ok (if s.registers.V x ≠ s.registers.V y then skip s else s)
  else if family = 0xA000 then .ok (set_I s nnn)
  else if family = 0xB000 then
    .ok (set_PC s (to_ushort ((nnn : Int) + s.registers.V 0x00)))
  else if family = 0xC000 then .ok (set_V s x ((h.rand % 255) &&& kk))
  else if family = 0xD000 then
    if s.registers.I + n ≤ CHIP8_MEMORY_SIZE then
      let sprite : Nat → Nat := fun ly => s.memory.memory (s.registers.I + ly)
      let drawn := chip8_screen_draw_sprite s.screen (s.registers.V x) (s.registers.V y) sprite n
      .ok (set_V { s with screen := drawn.1 } 0x0f (if drawn.2 then 1 else 0))
    else .error .undefined_behaviour
  else if family = 0xE000 then chip8_exec_extended_E s opcode x
  else if family = 0xF000 then chip8_exec_extended_F h s opcode x
  else .ok s

/-- The source's `chip8_exec`: `00E0` clears the screen, `00EE` pops the program
counter, every other opcode goes to `chip8_exec_extended`. -/
def chip8_exec (h : host) (s : chip8) (opcode : Nat) : Except chip8_error chip8 :=
  if opcode = 0x00E0 then .ok { s with screen := chip8_screen_clear s.screen }
  else if opcode = 0x00EE then
    match chip8_stack_pop s with
    | .error e => .error e
    | .ok (result, s1) => .ok (set_PC s1 result)
  else chip8_exec_extended h s opcode

/-! ## Decoding an opcode -/

/-- The opcode with the four nibbles `a`, `x`, `y`, `n`, most significant first. -/
def opcode_of (a x y n : Nat) : Nat := 0x1000 * a + 0x100 * x + 0x10 * y + n

/-! ## Concrete states used at the evaluations -/

/-- The state `chip8_init` leaves, whatever it started from. -/
def power_on : chip8 :=
  chip8_init
    { memory := ⟨fun _ => 0⟩
      registers := { V := fun _ => 0, I := 0, delay_timer := 0, sound_timer := 0, PC := 0, SP := 0 }
      stack := ⟨fun _ => 0⟩
      keyboard := { keyboard := fun _ => false, keyboard_map := none }
      screen := ⟨fun _ _ => false⟩ }

/-- A host that delivers no key event and whose `rand()` returns 0. -/
def idle_host : host := { rand := 0, keydowns := [] }

/-- The state `chip8_init` leaves, then with key 0 held down and the program
counter at 0xFFFF, the last value of its 16 bits. -/
def key0_down_at_top : chip8 :=
  { set_PC power_on 0xFFFF with
    keyboard := { keyboard := fun i => decide (i = 0), keyboard_map := none } }

/-! ## The cells a sprite addresses -/

/-- Pixel `(py, px)` (row, column) is addressed by a 1-bit of the draw of the first
`n` rows of `sprite` at `(x, y)`: some row below `n` and column below 8 have bit
`7 - col` of the row's byte set and wrap to `py` and `px`. -/
def sprite_addresses (x y : Nat) (sprite : Nat → Nat) (n py px : Nat) : Prop :=
  ∃ row, row < n ∧ ∃ col, col < 8 ∧ (sprite row).testBit (7 - col) = true ∧
    (y + row) % CHIP8_HEIGHT = py ∧ (x + col) % CHIP8_WIDTH = px

/-- The toggle of one cell `(row, column)`, as the draw does it: the collision flag
is raised when the cell is set, then the cell is flipped. -/
def toggle_cell (cell : Nat × Nat) (st : chip8_screen × Bool) : chip8_screen × Bool :=
  (⟨fun i j =>
      if i = cell.1 ∧ j = cell.2 then xor (st.1.pixels i j) true else st.1.pixels i j⟩,
    if st.1.pixels cell.1 cell.2 then true else st.2)

/-- The cells the draw of the byte `c` as row `ly` toggles, in the order of the
inner loop. -/
def sprite_cells_row (x y c ly : Nat) : List (Nat × Nat) :=
  ((List.range 8).filter (fun lx => decide (c &&& (0x80 >>> lx) ≠ 0))).map
    (fun lx => ((y + ly) % CHIP8_HEIGHT, (x + lx) % CHIP8_WIDTH))

/-- The cells a draw toggles, in the order of the two loops. -/
def sprite_cells (x y : Nat) (sprite : Nat → Nat) (n : Nat) : List (Nat × Nat) :=
  (List.range n).flatMap (fun ly => sprite_cells_row x y (sprite ly) ly)

/-- A step on the screen and the collision flag that flips a fixed set of pixels,
whatever the screen and the flag are. -/
def FlipsFixedSet (f : chip8_screen × Bool → chip8_screen × Bool) : Prop :=
  ∃ m : Nat → Nat → Bool, ∀ st i j, (f st).1.pixels i j = xor (st.1.pixels i j) (m i j)

/-- The state `chip8_init` leaves, then with the stack pointer at 15, the last
index of the stack, as after fifteen nested calls. -/
def stack_at_last_slot : chip8 :=
  { power_on with registers := { power_on.registers with SP := 15 } }

/-- The opcode with the nibbles `a` and `x` and the low byte `kk`. -/
def opcode_xkk (a x kk : Nat) : Nat := 0x1000 * a + 0x100 * x + kk

/-- The table `keyboard_map` of `main.c`: the SDL key codes of the keys `0` to `9`
and `a` to `f`, which are their character codes. -/
def keyboard_map : Nat → Int := fun i =>
  [0x30, 0x31, 0x32, 0x33, 0x34, 0x35, 0x36, 0x37,
   0x38, 0x39, 0x61, 0x62, 0x63, 0x64, 0x65, 0x66].getD i 0

/-- The state `s` with the registers `V0..VF` replaced by `V`, as a program
overwrites them. -/
def set_regs_V (s : chip8) (V : Nat → Nat) : chip8 :=
  { s with registers := { s.registers with V := V } }

theorem and_shifted_mask (op k j : Nat) :
    op &&& ((2 ^ k - 1) <<< j) = (op / 2 ^ j % 2 ^ k) * 2 ^ j := by
  apply Nat.eq_of_testBit_eq
  intro i
  have h2 : (op / 2 ^ j % 2 ^ k) * 2 ^ j = ((op >>> j) % 2 ^ k) <<< j := by
    simp [Nat.shiftLeft_eq, Nat.shiftRight_eq_div_pow]
  rw [h2, Nat.testBit_and, Nat.testBit_shiftLeft, Nat.testBit_two_pow_sub_one,
    Nat.testBit_shiftLeft, Nat.testBit_mod_two_pow, Nat.testBit_shiftRight]
  by_cases h1 : i ≥ j <;> by_cases h3 : i - j < k <;> simp [h1, h3]

theorem and_f000 (op : Nat) : op &&& 0xf000 = (op / 4096 % 16) * 4096 :=
  and_shifted_mask op 4 12

theorem and_0f00_shift (op : Nat) : (op &&& 0x0f00) >>> 8 = op / 256 % 16 := by
  have h := and_shifted_mask op 4 8
  have e : ((2 ^ 4 - 1) <<< 8 : Nat) = 0x0f00 := by decide
  rw [e] at h
  rw [h, Nat.shiftRight_eq_div_pow]
  omega

theorem and_00f0_shift (op : Nat) : (op &&& 0x00f0) >>> 4 = op / 16 % 16 := by
  have h := and_shifted_mask op 4 4
  have e : ((2 ^ 4 - 1) <<< 4 : Nat) = 0x00f0 := by decide
  rw [e] at h
  rw [h, Nat.shiftRight_eq_div_pow]
  omega

theorem and_0fff (op : Nat) : op &&& 0x0fff = op % 4096 :=
  Nat.and_pow_two_sub_one_eq_mod op 12

theorem and_00ff (op : Nat) : op &&& 0x00ff = op % 256 :=
  Nat.and_pow_two_sub_one_eq_mod op 8

theorem and_000f (op : Nat) : op &&& 0x000f = op % 16 :=
  Nat.and_pow_two_sub_one_eq_mod op 4

/-- The fields the interpreter extracts from `opcode_of a x y n` are the nibbles it
was built from. -/
theorem decode_opcode_of (a x y n : Nat) (ha : a < 16) (hx : x < 16) (hy : y < 16)
    (hn : n < 16) :
    opcode_of a x y n &&& 0xf000 = 0x1000 * a ∧
    (opcode_of a x y n &&& 0x0f00) >>> 8 = x ∧
    (opcode_of a x y n &&& 0x00f0) >>> 4 = y ∧
    opcode_of a x y n &&& 0x000f = n ∧
    opcode_of a x y n &&& 0x00ff = 0x10 * y + n ∧
    opcode_of a x y n &&& 0x0fff = 0x100 * x + 0x10 * y + n := by
  rw [and_f000, and_0f00_shift, and_00f0_shift, and_000f, and_00ff, and_0fff]
  unfold opcode_of
  omega

/-! ## Narrowing -/

theorem to_uchar_natCast (n : Nat) : to_uchar (n : Int) = n % 256 := by
  unfold to_uchar
  omega

theorem to_ushort_natCast (n : Nat) : to_ushort (n : Int) = n % 65536 := by
  unfold to_ushort
  omega

/-! ## The memory (chip8memory.c) -/

theorem chip8_memory_get_ok (m : chip8_memory) (index : Int)
    (h : 0 ≤ index ∧ index < 4096) : chip8_memory_get m index = .ok (m.memory index.toNat) := by
  simp [chip8_memory_get, chip8_is_memory_in_bounds, CHIP8_MEMORY_SIZE, h]

theorem chip8_memory_get_fault (m : chip8_memory) (index : Int)
    (h : ¬ (0 ≤ index ∧ index < 4096)) :
    chip8_memory_get m index = .error .assertion_failure := by
  simp only [chip8_memory_get, chip8_is_memory_in_bounds, CHIP8_MEMORY_SIZE]
  rw [if_neg (by simpa using h)]

theorem chip8_memory_set_ok (m : chip8_memory) (index : Int) (value : Nat)
    (h : 0 ≤ index ∧ index < 4096) :
    chip8_memory_set m index value =
      .ok ⟨fun i => if i = index.toNat then value else m.memory i⟩ := by
  simp [chip8_memory_set, chip8_is_memory_in_bounds, CHIP8_MEMORY_SIZE, h]

theorem chip8_memory_set_fault (m : chip8_memory) (index : Int) (value : Nat)
    (h : ¬ (0 ≤ index ∧ index < 4096)) :
    chip8_memory_set m index value = .error .assertion_failure := by
  simp only [chip8_memory_set, chip8_is_memory_in_bounds, CHIP8_MEMORY_SIZE]
  rw [if_neg (by simpa using h)]

/-- C10: on a memory of bytes, `chip8_memory_get_short` returns
`256 * Memory[index] + Memory[index + 1]`, a value of at most 65535, when
`0 ≤ index` and `index + 1 < 4096`, and faults when `index < 0` or
`index + 1 ≥ 4096`; `chip8_memory_get` and `chip8_memory_set` fault exactly when
`index` is outside 0..4095, and otherwise read and write the byte at `index`. -/
theorem chip8_memory_contract (m : chip8_memory) (index : Int) (value : Nat)
    (hbytes : ∀ i, i < CHIP8_MEMORY_SIZE → m.memory i < 256) :
    (0 ≤ index ∧ index + 1 < 4096 →
      chip8_memory_get_short m index
        = .ok (256 * m.memory index.toNat + m.memory (index.toNat + 1)) ∧
      256 * m.memory index.toNat + m.memory (index.toNat + 1) ≤ 65535) ∧
    (index < 0 ∨ index + 1 ≥ 4096 →
      chip8_memory_get_short m index = .error .assertion_failure) ∧
    (chip8_memory_get m index = .error .assertion_failure ↔ ¬ (0 ≤ index ∧ index ≤ 4095)) ∧
    (chip8_memory_set m index value = .error .assertion_failure
      ↔ ¬ (0 ≤ index ∧ index ≤ 4095)) ∧
    (0 ≤ index ∧ index ≤ 4095 →
      chip8_memory_get m index = .ok (m.memory index.toNat) ∧
      ∃ m', chip8_memory_set m index value = .ok m' ∧ m'.memory index.toNat = value ∧
        ∀ i, i ≠ index.toNat → m'.memory i = m.memory i) := by
  refine ⟨?_, ?_, ?_, ?_, ?_⟩
  · rintro ⟨h0, h1⟩
    have hb1 := hbytes index.toNat (by unfold CHIP8_MEMORY_SIZE; omega)
    have hb2 := hbytes (index.toNat + 1) (by unfold CHIP8_MEMORY_SIZE; omega)
    have e : (index + 1).toNat = index.toNat + 1 := by omega
    have hor : m.memory index.toNat <<< 8 ||| m.memory (index.toNat + 1)
        = 256 * m.memory index.toNat + m.memory (index.toNat + 1) := by
      have := Nat.mul_add_lt_is_or (i := 8) hb2 (m.memory index.toNat)
      rw [Nat.shiftLeft_eq, Nat.mul_comm]
      exact this.symm
    refine ⟨?_, by omega⟩
    unfold chip8_memory_get_short
    rw [chip8_memory_get_ok m index ⟨h0, by omega⟩,
      chip8_memory_get_ok m (index + 1) ⟨by omega, by omega⟩]
    simp only [e, hor]
    congr 1
    omega
  · intro h
    unfold chip8_memory_get_short
    by_cases h0 : 0 ≤ index ∧ index < 4096
    · rw [chip8_memory_get_ok m index h0,
        chip8_memory_get_fault m (index + 1) (by omega)]
    · rw [chip8_memory_get_fault m index h0]
  · by_cases h0 : 0 ≤ index ∧ index < 4096
    · rw [chip8_memory_get_ok m index h0]
      constructor
      · intro h; cases h
      · intro h; omega
    · rw [chip8_memory_get_fault m index h0]
      constructor
      · intro _; omega
      · intro _; rfl
  · by_cases h0 : 0 ≤ index ∧ index < 4096
    · rw [chip8_memory_set_ok m index value h0]
      constructor
      · intro h; cases h
      · intro h; omega
    · rw [chip8_memory_set_fault m index value h0]
      constructor
      · intro _; omega
      · intro _; rfl
  · intro h
    have h0 : 0 ≤ index ∧ index < 4096 := by omega
    refine ⟨chip8_memory_get_ok m index h0, _, chip8_memory_set_ok m index value h0, ?_, ?_⟩
    · simp
    · intro i hi
      simp [hi]

/-- The contract of C10 at the memory holding 0x12 at address 0 and 0x34
elsewhere, read at index 0: the word is 0x1234. -/
theorem chip8_memory_contract_witness :
    chip8_memory_get_short ⟨fun i => if i = 0 then 0x12 else 0x34⟩ 0 = .ok 0x1234 :=
  ((chip8_memory_contract ⟨fun i => if i = 0 then 0x12 else 0x34⟩ 0 0
    (by intro i _; dsimp only; split <;> decide)).1 ⟨by decide, by decide⟩).1

/-! ## The keyboard (chip8keyboard.c) -/

/-- C8: for a virtual key `k` in 0..15, `chip8_keyboard_down` and
`chip8_keyboard_up` return; after the first `chip8_keyboard_is_down k` is true,
after the second it is false; both leave every other key and the installed mapping
table as they were; for `k` outside 0..15 both fail their assertion. -/
theorem chip8_keyboard_down_up_contract (kb : chip8_keyboard) (k : Int) :
    (0 ≤ k ∧ k ≤ 15 →
      ∃ kd ku, chip8_keyboard_down kb k = .ok kd ∧ chip8_keyboard_up kb k = .ok ku ∧
        chip8_keyboard_is_down kd k = .ok true ∧
        chip8_keyboard_is_down ku k = .ok false ∧
        (∀ j : Int, j ≠ k → 0 ≤ j → j ≤ 15 →
          chip8_keyboard_is_down kd j = chip8_keyboard_is_down kb j ∧
          chip8_keyboard_is_down ku j = chip8_keyboard_is_down kb j) ∧
        (∀ i : Nat, i ≠ k.toNat → kd.keyboard i = kb.keyboard i ∧ ku.keyboard i = kb.keyboard i) ∧
        kd.keyboard_map = kb.keyboard_map ∧ ku.keyboard_map = kb.keyboard_map) ∧
    (¬ (0 ≤ k ∧ k ≤ 15) →
      chip8_keyboard_down kb k = .error .assertion_failure ∧
      chip8_keyboard_up kb k = .error .assertion_failure) := by
  constructor
  · rintro ⟨h0, h1⟩
    have hin : 0 ≤ k ∧ k < 16 := ⟨h0, by omega⟩
    refine ⟨{ kb with keyboard := fun i => if i = k.toNat then true else kb.keyboard i },
      { kb with keyboard := fun i => if i = k.toNat then false else kb.keyboard i },
      ?_, ?_, ?_, ?_, ?_, ?_, ?_, ?_⟩
    · simp only [chip8_keyboard_down, chip8_keyboard_in_bounds, CHIP8_TOTAL_KEYS]
      rw [if_pos (by simpa using hin)]
    · simp only [chip8_keyboard_up, chip8_keyboard_in_bounds, CHIP8_TOTAL_KEYS]
      rw [if_pos (by simpa using hin)]
    · simp only [chip8_keyboard_is_down, CHIP8_TOTAL_KEYS]
      rw [if_pos (by simpa using hin)]
      simp
    · simp only [chip8_keyboard_is_down, CHIP8_TOTAL_KEYS]
      rw [if_pos (by simpa using hin)]
      simp
    · intro j hj hj0 hj1
      have hjin : 0 ≤ j ∧ j < 16 := ⟨hj0, by omega⟩
      have hne : j.toNat ≠ k.toNat := by omega
      have hjin' : 0 ≤ j ∧ j < ((16 : Nat) : Int) := by simpa using hjin
      simp only [chip8_keyboard_is_down, CHIP8_TOTAL_KEYS, if_pos hjin']
      simp [hne]
    · intro i hi
      simp [hi]
    · rfl
    · rfl
  · intro h
    have hout : ¬ (0 ≤ k ∧ k < 16) := by omega
    constructor
    · simp only [chip8_keyboard_down, chip8_keyboard_in_bounds, CHIP8_TOTAL_KEYS]
      rw [if_neg (by simpa using hout)]
    · simp only [chip8_keyboard_up, chip8_keyboard_in_bounds, CHIP8_TOTAL_KEYS]
      rw [if_neg (by simpa using hout)]

/-! ## Loading a program (chip8.c) -/

/-- What `chip8_load` does at every size whose sum with the load address fits a
`size_t`: it fails its assertion exactly from the size 3584 on, and below it
returns with the program copied and `PC` at the load address. -/
theorem chip8_load_fault_iff (s : chip8) (buffer : Nat → Nat) (size : Nat)
    (hsize : CHIP8_PROGRAM_LOAD_ADDRESS + size < SIZE_T_MODULUS) :
    (3584 ≤ size → chip8_load s buffer size = .error .assertion_failure) ∧
    (size < 3584 → ∃ s', chip8_load s buffer size = .ok s' ∧
      s'.registers.PC = CHIP8_PROGRAM_LOAD_ADDRESS ∧
      ∀ i, i < size → s'.memory.memory (CHIP8_PROGRAM_LOAD_ADDRESS + i) = buffer i) := by
  unfold CHIP8_PROGRAM_LOAD_ADDRESS SIZE_T_MODULUS at hsize
  constructor
  · intro h
    unfold chip8_load
    rw [if_neg]
    unfold CHIP8_PROGRAM_LOAD_ADDRESS SIZE_T_MODULUS CHIP8_MEMORY_SIZE
    omega
  · intro h
    unfold chip8_load
    rw [if_pos, if_pos]
    · refine ⟨_, rfl, rfl, ?_⟩
      intro i hi
      simp [hi]
    · unfold CHIP8_PROGRAM_LOAD_ADDRESS CHIP8_MEMORY_SIZE
      omega
    · unfold CHIP8_PROGRAM_LOAD_ADDRESS SIZE_T_MODULUS CHIP8_MEMORY_SIZE
      omega

/-- C1, at the size 3584: a program of exactly the remaining capacity, whose last
byte would go to the last address 4095, makes `chip8_load` fail its assertion. -/
theorem chip8_load_rejects_exact_fit (s : chip8) (buffer : Nat → Nat) :
    CHIP8_PROGRAM_LOAD_ADDRESS + 3584 - 1 = CHIP8_MEMORY_SIZE - 1 ∧
    chip8_load s buffer 3584 = .error .assertion_failure := by
  refine ⟨by decide, ?_⟩
  unfold chip8_load
  rw [if_neg (by decide)]

/-! ## Dispatch to the blocks of the interpreter -/

theorem chip8_exec_family_8 (h : host) (s : chip8) (x y n : Nat) (hx : x < 16)
    (hy : y < 16) (hn : n < 16) :
    chip8_exec h s (opcode_of 8 x y n) = chip8_exec_extended_8 s (opcode_of 8 x y n) x y := by
  obtain ⟨d1, d2, d3, -, -, -⟩ := decode_opcode_of 8 x y n (by decide) hx hy hn
  have hop : 0x8000 ≤ opcode_of 8 x y n := by unfold opcode_of; omega
  unfold chip8_exec
  rw [if_neg (by omega), if_neg (by omega)]
  unfold chip8_exec_extended
  simp only [d1, d2, d3]
  simp

theorem chip8_exec_family_E (h : host) (s : chip8) (x y n : Nat) (hx : x < 16)
    (hy : y < 16) (hn : n < 16) :
    chip8_exec h s (opcode_of 0xE x y n) = chip8_exec_extended_E s (opcode_of 0xE x y n) x := by
  obtain ⟨d1, d2, -, -, -, -⟩ := decode_opcode_of 0xE x y n (by decide) hx hy hn
  have hop : 0xE000 ≤ opcode_of 0xE x y n := by unfold opcode_of; omega
  unfold chip8_exec
  rw [if_neg (by omega), if_neg (by omega)]
  unfold chip8_exec_extended
  simp only [d1, d2]
  simp

theorem chip8_exec_family_F (h : host) (s : chip8) (x y n : Nat) (hx : x < 16)
    (hy : y < 16) (hn : n < 16) :
    chip8_exec h s (opcode_of 0xF x y n)
      = chip8_exec_extended_F h s (opcode_of 0xF x y n) x := by
  obtain ⟨d1, d2, -, -, -, -⟩ := decode_opcode_of 0xF x y n (by decide) hx hy hn
  have hop : 0xF000 ≤ opcode_of 0xF x y n := by unfold opcode_of; omega
  unfold chip8_exec
  rw [if_neg (by omega), if_neg (by omega)]
  unfold chip8_exec_extended
  simp only [d1, d2]
  simp

/-! ## Arithmetic with the flag register (chip8.c, block 0x8000) -/

/-- C2: with `x` in 0..14, `y` in 0..15 and the bytes `a` in `Vx` and `b` in `Vy`,
opcode `8xy4` returns with `VF = 1` if `a + b > 255` and `VF = 0` otherwise, and
with `Vx = (a + b) mod 256`. -/
theorem chip8_exec_8xy4 (h : host) (s : chip8) (x y a b : Nat) (hx : x ≤ 14) (hy : y ≤ 15)
    (ha : a < 256) (hb : b < 256) (hVx : s.registers.V x = a) (hVy : s.registers.V y = b) :
    ∃ s', chip8_exec h s (opcode_of 8 x y 4) = .ok s' ∧
      s'.registers.V 0xf = (if a + b > 255 then 1 else 0) ∧
      s'.registers.V x = (a + b) % 256 := by
  rw [chip8_exec_family_8 h s x y 4 (by omega) (by omega) (by decide)]
  obtain ⟨-, -, -, d4, -, -⟩ :=
    decode_opcode_of 8 x y 4 (by decide) (by omega) (by omega) (by decide)
  unfold chip8_exec_extended_8
  simp only [d4]
  have hres : to_ushort ((a : Int) + b) = a + b := by unfold to_ushort; omega
  have hxf : x ≠ 15 := by omega
  refine ⟨_, rfl, ?_, ?_⟩
  · by_cases hc : a + b > 255
    · simp [set_V, hVx, hVy, hres, hc, hxf.symm]
    · simp [set_V, hVx, hVy, hres, hc, hxf.symm]
  · simp only [set_V, hVx, hVy, hres, if_true, ite_true]
    rw [to_uchar_natCast]

/-- The statement of C2 at `V0 = 200`, `V1 = 100`: opcode `8014` leaves `VF = 1`
and `V0 = 44`. -/
theorem chip8_exec_8xy4_witness :
    ∃ s', chip8_exec idle_host (set_V (set_V power_on 0 200) 1 100) (opcode_of 8 0 1 4) = .ok s' ∧
      s'.registers.V 0xf = (if 200 + 100 > 255 then 1 else 0) ∧
      s'.registers.V 0 = (200 + 100) % 256 :=
  chip8_exec_8xy4 idle_host (set_V (set_V power_on 0 200) 1 100) 0 1 200 100
    (by decide) (by decide) (by decide) (by decide) (by decide) (by decide)

/-- What opcode `8xy5` does when `Vy` is not the flag register: with `x` and `y`
in 0..14 and the bytes `a` in `Vx` and `b` in `Vy`, it returns with `VF = 1` if
`a > b` and `VF = 0` otherwise, and with `Vx = (a - b) mod 256`. -/
theorem chip8_exec_8xy5_below_flag (h : host) (s : chip8) (x y a b : Nat) (hx : x ≤ 14)
    (hy : y ≤ 14) (hVx : s.registers.V x = a) (hVy : s.registers.V y = b) :
    ∃ s', chip8_exec h s (opcode_of 8 x y 5) = .ok s' ∧
      s'.registers.V 0xf = (if a > b then 1 else 0) ∧
      (s'.registers.V x : Int) = ((a : Int) - b) % 256 := by
  rw [chip8_exec_family_8 h s x y 5 (by omega) (by omega) (by decide)]
  obtain ⟨-, -, -, d4, -, -⟩ :=
    decode_opcode_of 8 x y 5 (by decide) (by omega) (by omega) (by decide)
  unfold chip8_exec_extended_8
  simp only [d4]
  have hxf : x ≠ 15 := by omega
  have hyf : y ≠ 15 := by omega
  refine ⟨_, rfl, ?_, ?_⟩
  · by_cases hc : a > b
    · simp [set_V, hVx, hVy, hc, hxf, hxf.symm, hyf]
    · simp [set_V, hVx, hVy, hc, hxf, hxf.symm, hyf]
  · by_cases hc : a > b
    · simp [set_V, hVx, hVy, hc, hxf, hyf, to_uchar]
      omega
    · simp [set_V, hVx, hVy, hc, hxf, hyf, to_uchar]
      omega

/-- C3, at `y = F`: with `V0 = 5` and `VF = 7`, opcode `80F5` zeroes `VF` before it
reads it as `Vy`, and leaves `VF = 1` and `V0 = 4`, where `5 > 7` is false and
`(5 - 7) mod 256` is 254. -/
theorem chip8_exec_80F5_clobbers_operand :
    ∃ s', chip8_exec idle_host (set_V (set_V power_on 0 5) 0xf 7) (opcode_of 8 0 0xf 5) = .ok s' ∧
      (set_V (set_V power_on 0 5) 0xf 7).registers.V 0 = 5 ∧
      (set_V (set_V power_on 0 5) 0xf 7).registers.V 0xf = 7 ∧
      s'.registers.V 0xf = 1 ∧ s'.registers.V 0 = 4 ∧
      (if 5 > 7 then 1 else 0) = 0 ∧ ((5 : Int) - 7) % 256 = 254 :=
  ⟨_, rfl, rfl, rfl, rfl, rfl, rfl, rfl⟩

/-! ## Call and return (chip8.c, chip8stack.c) -/

theorem chip8_exec_00EE (h : host) (t : chip8) (hsp : t.registers.SP < 16) :
    chip8_exec h t 0x00EE = .ok (set_PC
      { t with registers := { t.registers with SP := (t.registers.SP + 256 - 1) % 256 } }
      (t.stack.stack t.registers.SP)) := by
  unfold chip8_exec
  rw [if_neg (by decide), if_pos rfl]
  simp only [chip8_stack_pop, chip8_is_stack_in_bounds, SIZEOF_STACK,
    CHIP8_TOTAL_STACK_DEPTH, SP_MODULUS]
  rw [if_pos (by omega), if_pos (by omega)]

/-- C6: with room on the stack for one more entry (`SP + 1` below the depth) and
an address `nnn`, opcode `2nnn` returns with `PC = nnn`; opcode `00EE` executed next
returns with `PC` and `SP` back at their values before the call; and after the
pair the registers `V0..VF`, `I` and the two timers, the memory, the keyboard and
the screen are as before the call. -/
theorem chip8_exec_call_return (h : host) (s : chip8) (nnn : Nat) (hnnn : nnn < 4096)
    (hroom : s.registers.SP + 1 < CHIP8_TOTAL_STACK_DEPTH) :
    ∃ s1 s2, chip8_exec h s (0x2000 + nnn) = .ok s1 ∧ s1.registers.PC = nnn ∧
      chip8_exec h s1 0x00EE = .ok s2 ∧
      s2.registers.PC = s.registers.PC ∧ s2.registers.SP = s.registers.SP ∧
      s2.registers.V = s.registers.V ∧ s2.registers.I = s.registers.I ∧
      s2.registers.delay_timer = s.registers.delay_timer ∧
      s2.registers.sound_timer = s.registers.sound_timer ∧
      s2.memory = s.memory ∧ s2.keyboard = s.keyboard ∧ s2.screen = s.screen := by
  unfold CHIP8_TOTAL_STACK_DEPTH at hroom
  have d1 : (0x2000 + nnn) &&& 0xf000 = 0x2000 := by rw [and_f000]; omega
  have d2 : (0x2000 + nnn) &&& 0x0fff = nnn := by rw [and_0fff]; omega
  have hsp1 : (s.registers.SP + 1) % 256 = s.registers.SP + 1 := by omega
  have hsp2 : (s.registers.SP + 1 + 256 - 1) % 256 = s.registers.SP := by omega
  have hpush : chip8_stack_push s s.registers.PC = .ok
      { s with
        registers := { s.registers with SP := s.registers.SP + 1 }
        stack := ⟨fun i => if i = s.registers.SP + 1 then s.registers.PC else s.stack.stack i⟩ } := by
    simp only [chip8_stack_push, chip8_is_stack_in_bounds, SIZEOF_STACK,
      CHIP8_TOTAL_STACK_DEPTH, SP_MODULUS, hsp1]
    rw [if_pos (by omega), if_pos (by omega)]
  have hcall : chip8_exec h s (0x2000 + nnn) = .ok (set_PC
      { s with
        registers := { s.registers with SP := s.registers.SP + 1 }
        stack := ⟨fun i => if i = s.registers.SP + 1 then s.registers.PC else s.stack.stack i⟩ }
      nnn) := by
    unfold chip8_exec
    rw [if_neg (by omega), if_neg (by omega)]
    unfold chip8_exec_extended
    simp only [d1, d2, hpush]
    simp
  refine ⟨_, _, hcall, rfl, chip8_exec_00EE h _ ?_, ?_⟩
  · simp only [set_PC]
    omega
  · simp [set_PC, hsp2]
    omega

/-- The statement of C6 at the state `chip8_init` leaves, with `PC` set to 0x202,
and the address 0x300. -/
theorem chip8_exec_call_return_witness :
    ∃ s1 s2, chip8_exec idle_host (set_PC power_on 0x202) (0x2000 + 0x300) = .ok s1 ∧
      s1.registers.PC = 0x300 ∧ chip8_exec idle_host s1 0x00EE = .ok s2 ∧
      s2.registers.PC = 0x202 ∧ s2.registers.SP = 0 := by
  obtain ⟨s1, s2, h1, h2, h3, h4, h5, -⟩ :=
    chip8_exec_call_return idle_host (set_PC power_on 0x202) 0x300 (by decide) (by decide)
  exact ⟨s1, s2, h1, h2, h3, h4, h5⟩

/-! ## Binary-coded decimal (chip8.c, block 0xF000) -/

/-- C7: with the byte `v` in `Vx` and `I + 2 < 4096`, opcode `Fx33` returns with
`v / 100` at `Memory[I]`, `(v / 10) mod 10` at `Memory[I + 1]` and `v mod 10` at
`Memory[I + 2]`; the three are decimal digits and `100 h + 10 t + u = v`; every
other memory byte, every register (`I` among them), the stack, the keyboard and
the screen are unchanged. -/
theorem chip8_exec_Fx33 (h : host) (s : chip8) (x v : Nat) (hx : x < 16) (hv : v < 256)
    (hVx : s.registers.V x = v) (hI : s.registers.I + 2 < 4096) :
    ∃ s', chip8_exec h s (opcode_of 0xF x 3 3) = .ok s' ∧
      s'.memory.memory s.registers.I = v / 100 ∧
      s'.memory.memory (s.registers.I + 1) = v / 10 % 10 ∧
      s'.memory.memory (s.registers.I + 2) = v % 10 ∧
      v / 100 ≤ 9 ∧ v / 10 % 10 ≤ 9 ∧ v % 10 ≤ 9 ∧
      100 * (v / 100) + 10 * (v / 10 % 10) + v % 10 = v ∧
      (∀ a, a ≠ s.registers.I → a ≠ s.registers.I + 1 → a ≠ s.registers.I + 2 →
        s'.memory.memory a = s.memory.memory a) ∧
      s'.registers = s.registers ∧ s'.stack = s.stack ∧ s'.keyboard = s.keyboard ∧
      s'.screen = s.screen := by
  rw [chip8_exec_family_F h s x 3 3 hx (by decide) (by decide)]
  obtain ⟨-, -, -, -, d5, -⟩ :=
    decode_opcode_of 0xF x 3 3 (by decide) hx (by decide) (by decide)
  have d5' : opcode_of 0xF x 3 3 &&& 0x00ff = 0x33 := d5
  unfold chip8_exec_extended_F
  dsimp only
  rw [d5', hVx]
  have e1 : ((s.registers.I : Int) + 1).toNat = s.registers.I + 1 := by omega
  have e2 : ((s.registers.I : Int) + 2).toNat = s.registers.I + 2 := by omega
  have hh : to_uchar ((v : Int) / 100) = v / 100 := by unfold to_uchar; omega
  have ht : to_uchar ((v : Int) / 10 % 10) = v / 10 % 10 := by unfold to_uchar; omega
  have hu : to_uchar ((v : Int) % 10) = v % 10 := by unfold to_uchar; omega
  rw [if_neg (by decide), if_neg (by decide), if_neg (by decide), if_neg (by decide),
    if_neg (by decide), if_neg (by decide), if_pos (by decide)]
  rw [chip8_memory_set_ok _ _ _ ⟨by omega, by omega⟩]
  dsimp only
  rw [chip8_memory_set_ok _ _ _ ⟨by omega, by omega⟩]
  dsimp only
  rw [chip8_memory_set_ok _ _ _ ⟨by omega, by omega⟩]
  dsimp only
  simp only [e1, e2, hh, ht, hu, Int.toNat_ofNat]
  refine ⟨_, rfl, ?_, ?_, ?_, by omega, by omega, by omega, by omega, ?_, rfl, rfl, rfl, rfl⟩
  · simp
  · simp
  · simp
  · intro a h0 h1 h2
    simp [h0, h1, h2]

/-- The statement of C7 at `V0 = 156` and `I = 0x300`: the three bytes stored are
1, 5 and 6. -/
theorem chip8_exec_Fx33_witness :
    ∃ s', chip8_exec idle_host (set_I (set_V power_on 0 156) 0x300) (opcode_of 0xF 0 3 3) = .ok s' ∧
      s'.memory.memory 0x300 = 1 ∧ s'.memory.memory 0x301 = 5 ∧
      s'.memory.memory 0x302 = 6 := by
  obtain ⟨s', h0, h1, h2, h3, -⟩ :=
    chip8_exec_Fx33 idle_host (set_I (set_V power_on 0 156) 0x300) 0 156
      (by decide) (by decide) (by decide) (by decide)
  exact ⟨s', h0, h1, h2, h3⟩

/-! ## Skips on the keyboard (chip8.c, block 0xE000) -/

/-- C9 as the code has it: with `Vx` in 0..15 the key state is read without a
fault; if key `Vx` is down, `Ex9E` sets `PC` to `(PC + 2) mod 2^16` and `ExA1`
leaves the state as it is; if it is not down, `ExA1` sets `PC` to
`(PC + 2) mod 2^16` and `Ex9E` leaves the state as it is; nothing but `PC` is
changed by either. -/
theorem chip8_exec_Ex9E_ExA1 (h : host) (s : chip8) (x : Nat) (hx : x < 16)
    (hVx : s.registers.V x ≤ 15) :
    chip8_keyboard_is_down s.keyboard (s.registers.V x)
      = .ok (s.keyboard.keyboard (s.registers.V x)) ∧
    (s.keyboard.keyboard (s.registers.V x) = true →
      chip8_exec h s (opcode_of 0xE x 9 0xE)
        = .ok { s with registers := { s.registers with PC := (s.registers.PC + 2) % 65536 } } ∧
      chip8_exec h s (opcode_of 0xE x 0xA 1) = .ok s) ∧
    (s.keyboard.keyboard (s.registers.V x) = false →
      chip8_exec h s (opcode_of 0xE x 9 0xE) = .ok s ∧
      chip8_exec h s (opcode_of 0xE x 0xA 1)
        = .ok { s with registers := { s.registers with PC := (s.registers.PC + 2) % 65536 } }) := by
  have hdown : chip8_keyboard_is_down s.keyboard (s.registers.V x)
      = .ok (s.keyboard.keyboard (s.registers.V x)) := by
    simp only [chip8_keyboard_is_down, CHIP8_TOTAL_KEYS]
    rw [if_pos (by omega)]
    simp
  have hskip : skip s
      = { s with registers := { s.registers with PC := (s.registers.PC + 2) % 65536 } } := by
    have : to_ushort ((s.registers.PC : Int) + 2) = (s.registers.PC + 2) % 65536 := by
      unfold to_ushort; omega
    simp only [skip, set_PC, this]
  rw [chip8_exec_family_E h s x 9 0xE hx (by decide) (by decide),
    chip8_exec_family_E h s x 0xA 1 hx (by decide) (by decide)]
  obtain ⟨-, -, -, -, d9, -⟩ :=
    decode_opcode_of 0xE x 9 0xE (by decide) hx (by decide) (by decide)
  obtain ⟨-, -, -, -, dA, -⟩ :=
    decode_opcode_of 0xE x 0xA 1 (by decide) hx (by decide) (by decide)
  unfold chip8_exec_extended_E
  simp only [d9, dA, hdown, hskip]
  refine ⟨trivial, ?_, ?_⟩
  · intro hk
    simp [hk]
  · intro hk
    simp [hk]

/-- The statement of C9 as amended, at the state `chip8_init` leaves with key 0
held down and `PC = 0xFFFF`: `E09E` sets `PC` to 1 and `E0A1` changes nothing. -/
theorem chip8_exec_Ex9E_ExA1_witness :
    chip8_exec idle_host key0_down_at_top (opcode_of 0xE 0 9 0xE)
      = .ok { key0_down_at_top with
          registers := { key0_down_at_top.registers with
            PC := (key0_down_at_top.registers.PC + 2) % 65536 } } ∧
    chip8_exec idle_host key0_down_at_top (opcode_of 0xE 0 0xA 1) = .ok key0_down_at_top :=
  (chip8_exec_Ex9E_ExA1 idle_host key0_down_at_top 0 (by decide) (by decide)).2.1 (by decide)

/-- C9 as stated fails where the program counter is at the top of its 16 bits:
with key 0 down, `V0 = 0` and `PC = 0xFFFF`, opcode `E09E` returns with `PC = 1`,
which is not `PC + 2`. -/
theorem chip8_exec_Ex9E_wraps_PC :
    ∃ s', chip8_exec idle_host key0_down_at_top (opcode_of 0xE 0 9 0xE) = .ok s' ∧
      chip8_keyboard_is_down key0_down_at_top.keyboard (key0_down_at_top.registers.V 0)
        = .ok true ∧
      key0_down_at_top.registers.PC = 0xFFFF ∧ s'.registers.PC = 1 ∧
      s'.registers.PC ≠ key0_down_at_top.registers.PC + 2 :=
  ⟨_, rfl, rfl, rfl, rfl, by decide⟩

/-! ## Drawing a sprite (chip8screen.c) -/

theorem flipsFixedSet_bit (x y c ly lx : Nat) :
    FlipsFixedSet (chip8_screen_draw_sprite_bit x y c ly lx) := by
  refine ⟨fun i j => decide (c &&& (0x80 >>> lx) ≠ 0 ∧
    i = (y + ly) % CHIP8_HEIGHT ∧ j = (x + lx) % CHIP8_WIDTH), ?_⟩
  intro st i j
  unfold chip8_screen_draw_sprite_bit
  by_cases hb : c &&& (0x80 >>> lx) = 0
  · simp [hb]
  · by_cases hc : i = (y + ly) % CHIP8_HEIGHT ∧ j = (x + lx) % CHIP8_WIDTH
    · simp [hb, hc]
    · simp [hb, hc]

theorem flipsFixedSet_foldl {α : Type} (g : α → chip8_screen × Bool → chip8_screen × Bool)
    (hg : ∀ a, FlipsFixedSet (g a)) (l : List α) :
    FlipsFixedSet (fun st => l.foldl (fun acc a => g a acc) st) := by
  induction l with
  | nil => exact ⟨fun _ _ => false, fun st i j => by simp⟩
  | cons a l ih =>
    obtain ⟨m1, h1⟩ := hg a
    obtain ⟨m2, h2⟩ := ih
    refine ⟨fun i j => xor (m1 i j) (m2 i j), ?_⟩
    intro st i j
    have := h2 (g a st) i j
    simp only [List.foldl_cons] at this ⊢
    rw [this, h1 st i j, Bool.xor_assoc]

theorem flipsFixedSet_draw (x y : Nat) (sprite : Nat → Nat) (n : Nat) :
    FlipsFixedSet (fun st => (List.range n).foldl
      (fun acc ly => chip8_screen_draw_sprite_row x y (sprite ly) ly acc) st) := by
  apply flipsFixedSet_foldl (fun ly => chip8_screen_draw_sprite_row x y (sprite ly) ly)
  intro ly
  exact flipsFixedSet_foldl (fun lx => chip8_screen_draw_sprite_bit x y (sprite ly) ly lx)
    (fun lx => flipsFixedSet_bit x y (sprite ly) ly lx) (List.range 8)

/-- Two identical draws in a row give back the screen they started from. -/
theorem draw_sprite_twice_eq (screen : chip8_screen) (x y : Nat) (sprite : Nat → Nat)
    (n : Nat) :
    (chip8_screen_draw_sprite (chip8_screen_draw_sprite screen x y sprite n).1 x y sprite n).1
      = screen := by
  obtain ⟨m, hm⟩ := flipsFixedSet_draw x y sprite n
  have key : (chip8_screen_draw_sprite (chip8_screen_draw_sprite screen x y sprite n).1
      x y sprite n).1.pixels = screen.pixels := by
    funext py px
    have h1 := hm (screen, false) py px
    have h2 := hm ((chip8_screen_draw_sprite screen x y sprite n).1, false) py px
    unfold chip8_screen_draw_sprite at h2 ⊢
    simp only at h1 h2
    rw [h2, h1, Bool.xor_assoc, Bool.xor_self, Bool.xor_false]
  cases screen
  cases hd : (chip8_screen_draw_sprite
    (chip8_screen_draw_sprite _ x y sprite n).1 x y sprite n).1
  rw [hd] at key
  simpa using key

/-- C4: drawing a sprite and then the identical sprite at the identical place gives
back the screen, pixel for pixel, for every screen, every position, every sprite
and every number of rows. -/
theorem chip8_screen_draw_sprite_twice (screen : chip8_screen) (x y : Nat)
    (sprite : Nat → Nat) (n : Nat) :
    (chip8_screen_draw_sprite (chip8_screen_draw_sprite screen x y sprite n).1 x y sprite n).1
      = screen ∧
    ∀ py px, py < CHIP8_HEIGHT → px < CHIP8_WIDTH →
      (chip8_screen_draw_sprite (chip8_screen_draw_sprite screen x y sprite n).1
        x y sprite n).1.pixels py px = screen.pixels py px :=
  ⟨draw_sprite_twice_eq screen x y sprite n,
    fun py px _ _ => by rw [draw_sprite_twice_eq screen x y sprite n]⟩

theorem draw_sprite_bit_eq (x y c ly lx : Nat) (st : chip8_screen × Bool) :
    chip8_screen_draw_sprite_bit x y c ly lx st =
      if c &&& (0x80 >>> lx) ≠ 0
      then toggle_cell ((y + ly) % CHIP8_HEIGHT, (x + lx) % CHIP8_WIDTH) st else st := by
  unfold chip8_screen_draw_sprite_bit toggle_cell
  by_cases hb : c &&& (0x80 >>> lx) = 0
  · simp [hb]
  · simp [hb]

theorem draw_sprite_row_eq (x y c ly : Nat) (st : chip8_screen × Bool) :
    chip8_screen_draw_sprite_row x y c ly st
      = (sprite_cells_row x y c ly).foldl (fun acc cell => toggle_cell cell acc) st := by
  unfold chip8_screen_draw_sprite_row sprite_cells_row
  generalize List.range 8 = l
  induction l generalizing st with
  | nil => rfl
  | cons lx l ih =>
    rw [List.foldl_cons, ih, draw_sprite_bit_eq]
    by_cases hb : c &&& (0x80 >>> lx) = 0
    · simp [List.filter_cons, hb]
    · simp [List.filter_cons, hb]

theorem draw_sprite_eq (screen : chip8_screen) (x y : Nat) (sprite : Nat → Nat) (n : Nat) :
    chip8_screen_draw_sprite screen x y sprite n
      = (sprite_cells x y sprite n).foldl (fun acc cell => toggle_cell cell acc)
          (screen, false) := by
  unfold chip8_screen_draw_sprite sprite_cells
  generalize (screen, false) = st
  generalize List.range n = l
  induction l generalizing st with
  | nil => rfl
  | cons ly l ih =>
    rw [List.foldl_cons, ih, draw_sprite_row_eq, List.flatMap_cons, List.foldl_append]

/-- Toggling the cells of a list without repetition flips exactly the cells of the
list, and raises the collision flag exactly when one of them was set. -/
theorem toggle_cells_nodup (L : List (Nat × Nat)) (hL : L.Nodup) (st : chip8_screen × Bool) :
    (∀ i j, (L.foldl (fun acc cell => toggle_cell cell acc) st).1.pixels i j
      = xor (st.1.pixels i j) (decide ((i, j) ∈ L))) ∧
    (L.foldl (fun acc cell => toggle_cell cell acc) st).2
      = (st.2 || L.any (fun cell => st.1.pixels cell.1 cell.2)) := by
  induction L generalizing st with
  | nil => simp
  | cons c L ih =>
    obtain ⟨hc, hL'⟩ := List.nodup_cons.mp hL
    obtain ⟨ih1, ih2⟩ := ih hL' (toggle_cell c st)
    rw [List.foldl_cons]
    constructor
    · intro i j
      rw [ih1]
      by_cases hij : (i, j) = c
      · subst hij
        simp [toggle_cell, hc]
      · have hne : ¬ (i = c.1 ∧ j = c.2) := by
          rintro ⟨h1, h2⟩
          exact hij (Prod.ext h1 h2)
        have hne' : ¬ (c = (i, j)) := fun h => hij h.symm
        simp [toggle_cell, hne, List.mem_cons, hij]
    · rw [ih2]
      have hany : L.any (fun cell => (toggle_cell c st).1.pixels cell.1 cell.2)
          = L.any (fun cell => st.1.pixels cell.1 cell.2) := by
        have hsame : ∀ d ∈ L, (toggle_cell c st).1.pixels d.1 d.2 = st.1.pixels d.1 d.2 := by
          intro d hd
          have hne : ¬ (d.1 = c.1 ∧ d.2 = c.2) := by
            rintro ⟨h1, h2⟩
            exact hc (by rw [← Prod.ext h1 h2]; exact hd)
          simp [toggle_cell, hne]
        rw [Bool.eq_iff_iff, List.any_eq_true, List.any_eq_true]
        constructor
        · rintro ⟨d, hd, h⟩
          exact ⟨d, hd, by rw [← hsame d hd]; exact h⟩
        · rintro ⟨d, hd, h⟩
          exact ⟨d, hd, by rw [hsame d hd]; exact h⟩
      rw [hany]
      cases hp : st.1.pixels c.1 c.2 <;> simp [toggle_cell, hp]

theorem mask_test_iff (c lx : Nat) (hlx : lx < 8) :
    c &&& (0x80 >>> lx) ≠ 0 ↔ c.testBit (7 - lx) = true := by
  have e : (0x80 >>> lx) = 2 ^ (7 - lx) := by interval_cases lx <;> rfl
  rw [e, Nat.and_two_pow]
  have hpos : 2 ^ (7 - lx) ≠ 0 := by positivity
  cases h : c.testBit (7 - lx) <;> simp [hpos]

theorem mem_sprite_cells_row (x y c ly py px : Nat) :
    (py, px) ∈ sprite_cells_row x y c ly ↔
      ∃ col, col < 8 ∧ c.testBit (7 - col) = true ∧
        (y + ly) % CHIP8_HEIGHT = py ∧ (x + col) % CHIP8_WIDTH = px := by
  unfold sprite_cells_row
  simp only [List.mem_map, List.mem_filter, List.mem_range, decide_eq_true_eq, Prod.mk.injEq]
  constructor
  · rintro ⟨col, ⟨hcol, hbit⟩, h1, h2⟩
    exact ⟨col, hcol, (mask_test_iff c col hcol).mp hbit, h1, h2⟩
  · rintro ⟨col, hcol, hbit, h1, h2⟩
    exact ⟨col, ⟨hcol, (mask_test_iff c col hcol).mpr hbit⟩, h1, h2⟩

theorem mem_sprite_cells (x y : Nat) (sprite : Nat → Nat) (n py px : Nat) :
    (py, px) ∈ sprite_cells x y sprite n ↔ sprite_addresses x y sprite n py px := by
  unfold sprite_cells sprite_addresses
  rw [List.mem_flatMap]
  simp only [List.mem_range, mem_sprite_cells_row]

theorem sprite_cells_row_nodup (x y c ly : Nat) : (sprite_cells_row x y c ly).Nodup := by
  unfold sprite_cells_row
  apply List.Nodup.map_on
  · intro a ha b hb hab
    have ha' : a < 8 := List.mem_range.mp (List.mem_filter.mp ha).1
    have hb' : b < 8 := List.mem_range.mp (List.mem_filter.mp hb).1
    simp only [Prod.mk.injEq, CHIP8_WIDTH] at hab
    omega
  · exact (List.nodup_range 8).filter _

/-- With at most as many rows as the screen has, no cell is toggled twice by a
draw. -/
theorem sprite_cells_nodup (x y : Nat) (sprite : Nat → Nat) (n : Nat)
    (hn : n ≤ CHIP8_HEIGHT) : (sprite_cells x y sprite n).Nodup := by
  unfold sprite_cells
  rw [List.nodup_flatMap]
  refine ⟨fun ly _ => sprite_cells_row_nodup x y (sprite ly) ly, ?_⟩
  apply (List.nodup_range n).pairwise_of_forall_ne
  intro a ha b hb hab
  have ha' := List.mem_range.mp ha
  have hb' := List.mem_range.mp hb
  intro cell h1 h2
  obtain ⟨py, px⟩ := cell
  obtain ⟨_, _, _, e1, _⟩ := (mem_sprite_cells_row x y (sprite a) a py px).mp h1
  obtain ⟨_, _, _, e2, _⟩ := (mem_sprite_cells_row x y (sprite b) b py px).mp h2
  unfold CHIP8_HEIGHT at hn e1 e2
  omega

/-- What a draw of at most 32 rows does to any screen: a pixel is flipped exactly
when a 1-bit of the sprite addresses it, and the flag returned is true exactly when
such a pixel was set before the draw. -/
theorem draw_sprite_effect (screen : chip8_screen) (x y : Nat) (sprite : Nat → Nat) (n : Nat)
    (hn : n ≤ CHIP8_HEIGHT) :
    (∀ py px, (chip8_screen_draw_sprite screen x y sprite n).1.pixels py px
      = xor (screen.pixels py px) (decide ((py, px) ∈ sprite_cells x y sprite n))) ∧
    ((chip8_screen_draw_sprite screen x y sprite n).2 = true ↔
      ∃ py px, (py, px) ∈ sprite_cells x y sprite n ∧ screen.pixels py px = true) := by
  obtain ⟨h1, h2⟩ := toggle_cells_nodup (sprite_cells x y sprite n)
    (sprite_cells_nodup x y sprite n hn) (screen, false)
  rw [draw_sprite_eq]
  refine ⟨h1, ?_⟩
  rw [h2]
  simp only [Bool.false_or, List.any_eq_true]
  constructor
  · rintro ⟨⟨py, px⟩, hmem, hset⟩
    exact ⟨py, px, hmem, hset⟩
  · rintro ⟨py, px, hmem, hset⟩
    exact ⟨(py, px), hmem, hset⟩

theorem sprite_byte_ne_zero_iff (c : Nat) (hc : c < 256) :
    c ≠ 0 ↔ ∃ col, col < 8 ∧ c.testBit (7 - col) = true := by
  constructor
  · intro h
    obtain ⟨i, hi⟩ := Nat.ne_zero_implies_bit_true h
    have hi8 : i < 8 := by
      by_contra hge
      have hlt : c < 2 ^ i :=
        lt_of_lt_of_le hc (by
          have : 2 ^ 8 ≤ 2 ^ i := Nat.pow_le_pow_right (by decide) (by omega)
          simpa using this)
      rw [Nat.testBit_lt_two_pow hlt] at hi
      cases hi
    exact ⟨7 - i, by omega, by rw [show 7 - (7 - i) = i by omega]; exact hi⟩
  · rintro ⟨col, _, hbit⟩ h0
    rw [h0, Nat.zero_testBit] at hbit
    cases hbit

/-- C5: on a cleared screen, for a sprite of `n ≤ 32` rows of bytes drawn at any
`(x, y)`, the first draw returns no collision and sets exactly the pixels its
1-bits address; the second, identical draw returns a collision if and only if one
of the `n` bytes is not zero, and leaves the screen cleared. -/
theorem chip8_screen_draw_sprite_on_cleared (screen : chip8_screen) (x y : Nat)
    (sprite : Nat → Nat) (n : Nat) (hn : n ≤ 32) (hbytes : ∀ r, r < n → sprite r < 256) :
    (chip8_screen_draw_sprite (chip8_screen_clear screen) x y sprite n).2 = false ∧
    (∀ py px,
      (chip8_screen_draw_sprite (chip8_screen_clear screen) x y sprite n).1.pixels py px = true
        ↔ sprite_addresses x y sprite n py px) ∧
    ((chip8_screen_draw_sprite
        (chip8_screen_draw_sprite (chip8_screen_clear screen) x y sprite n).1
        x y sprite n).2 = true ↔ ∃ r, r < n ∧ sprite r ≠ 0) ∧
    (chip8_screen_draw_sprite
        (chip8_screen_draw_sprite (chip8_screen_clear screen) x y sprite n).1
        x y sprite n).1 = chip8_screen_clear screen := by
  have hn' : n ≤ CHIP8_HEIGHT := hn
  obtain ⟨p1, c1⟩ := draw_sprite_effect (chip8_screen_clear screen) x y sprite n hn'
  obtain ⟨-, c2⟩ := draw_sprite_effect
    (chip8_screen_draw_sprite (chip8_screen_clear screen) x y sprite n).1 x y sprite n hn'
  have hset : ∀ py px,
      (chip8_screen_draw_sprite (chip8_screen_clear screen) x y sprite n).1.pixels py px = true
        ↔ sprite_addresses x y sprite n py px := by
    intro py px
    rw [p1, ← mem_sprite_cells]
    simp [chip8_screen_clear]
  refine ⟨?_, hset, ?_, draw_sprite_twice_eq _ x y sprite n⟩
  · cases hcol : (chip8_screen_draw_sprite (chip8_screen_clear screen) x y sprite n).2
    · rfl
    · obtain ⟨py, px, _, hpix⟩ := c1.mp hcol
      simp [chip8_screen_clear] at hpix
  · rw [c2]
    constructor
    · rintro ⟨py, px, hmem, -⟩
      obtain ⟨row, hrow, col, hcol, hbit, -, -⟩ := (mem_sprite_cells x y sprite n py px).mp hmem
      exact ⟨row, hrow, (sprite_byte_ne_zero_iff _ (hbytes row hrow)).mpr ⟨col, hcol, hbit⟩⟩
    · rintro ⟨row, hrow, hne⟩
      obtain ⟨col, hcol, hbit⟩ := (sprite_byte_ne_zero_iff _ (hbytes row hrow)).mp hne
      have hadr : sprite_addresses x y sprite n
          ((y + row) % CHIP8_HEIGHT) ((x + col) % CHIP8_WIDTH) :=
        ⟨row, hrow, col, hcol, hbit, rfl, rfl⟩
      exact ⟨_, _, (mem_sprite_cells x y sprite n _ _).mpr hadr, (hset _ _).mpr hadr⟩

/-- The statement of C5 at the one-row sprite `0xFF` drawn at `(0, 0)`: the first
draw returns no collision and sets the pixels 0..7 of row 0; the second returns a
collision and leaves the screen cleared. -/
theorem chip8_screen_draw_sprite_on_cleared_witness :
    (chip8_screen_draw_sprite (chip8_screen_clear power_on.screen) 0 0 (fun _ => 0xFF) 1).2
      = false ∧
    (∀ px, px < 8 →
      (chip8_screen_draw_sprite (chip8_screen_clear power_on.screen) 0 0
        (fun _ => 0xFF) 1).1.pixels 0 px = true) ∧
    (chip8_screen_draw_sprite
      (chip8_screen_draw_sprite (chip8_screen_clear power_on.screen) 0 0 (fun _ => 0xFF) 1).1
      0 0 (fun _ => 0xFF) 1).2 = true ∧
    (chip8_screen_draw_sprite
      (chip8_screen_draw_sprite (chip8_screen_clear power_on.screen) 0 0 (fun _ => 0xFF) 1).1
      0 0 (fun _ => 0xFF) 1).1 = chip8_screen_clear power_on.screen := by
  obtain ⟨h1, h2, h3, h4⟩ :=
    chip8_screen_draw_sprite_on_cleared power_on.screen 0 0 (fun _ => 0xFF) 1
      (by decide) (fun _ _ => (by decide : (0xFF : Nat) < 256))
  refine ⟨h1, ?_, h3.mpr ⟨0, by decide, by decide⟩, h4⟩
  intro px hpx
  refine (h2 0 px).mpr ⟨0, by decide, px, hpx, ?_, rfl, ?_⟩
  · interval_cases px <;> decide
  · unfold CHIP8_WIDTH
    omega

/-! ## The bounds of the stack (chip8stack.c) -/

/-- What `chip8_stack_push` does at every stack pointer below 255: it stores and
returns while the incremented pointer is below the depth, fails its assertion when
the incremented pointer is 32 or more, and in between passes the assertion with
the store outside the array. -/
theorem chip8_stack_push_outcome (s : chip8) (val : Nat) (hsp : s.registers.SP < 255) :
    (s.registers.SP + 1 < 16 → ∃ s', chip8_stack_push s val = .ok s' ∧
      s'.registers.SP = s.registers.SP + 1 ∧ s'.stack.stack (s.registers.SP + 1) = val) ∧
    (16 ≤ s.registers.SP + 1 → s.registers.SP + 1 < 32 →
      chip8_stack_push s val = .error .undefined_behaviour) ∧
    (32 ≤ s.registers.SP + 1 → chip8_stack_push s val = .error .assertion_failure) := by
  have hmod : (s.registers.SP + 1) % 256 = s.registers.SP + 1 := by omega
  refine ⟨?_, ?_, ?_⟩
  · intro h
    simp only [chip8_stack_push, chip8_is_stack_in_bounds, SIZEOF_STACK,
      CHIP8_TOTAL_STACK_DEPTH, SP_MODULUS, hmod]
    rw [if_pos (by omega), if_pos (by omega)]
    exact ⟨_, rfl, rfl, by simp⟩
  · intro h1 h2
    simp only [chip8_stack_push, chip8_is_stack_in_bounds, SIZEOF_STACK,
      CHIP8_TOTAL_STACK_DEPTH, SP_MODULUS, hmod]
    rw [if_pos (by omega), if_neg (by omega)]
  · intro h
    simp only [chip8_stack_push, chip8_is_stack_in_bounds, SIZEOF_STACK,
      CHIP8_TOTAL_STACK_DEPTH, SP_MODULUS, hmod]
    rw [if_neg (by omega)]

/-- C11, at `SP = 15`: the incremented stack pointer 16 is the depth of the stack,
no index of it, yet it is below `sizeof(stack) = 32`, the bound the guard
compares with; the guard passes, so `chip8_stack_push` and opcode `2nnn` do not
fail an assertion and the store goes outside the array. -/
theorem chip8_stack_push_past_depth :
    stack_at_last_slot.registers.SP + 1 = CHIP8_TOTAL_STACK_DEPTH ∧
    chip8_is_stack_in_bounds
      { stack_at_last_slot with
        registers := { stack_at_last_slot.registers with SP := 16 } } = .ok () ∧
    chip8_stack_push stack_at_last_slot 0x202 = .error .undefined_behaviour ∧
    chip8_exec idle_host stack_at_last_slot (0x2000 + 0x300) = .error .undefined_behaviour :=
  ⟨rfl, rfl, rfl, rfl⟩

/-- C12, at the state `chip8_init` leaves: with the stack empty (`SP = 0`) the
guard of `chip8_stack_pop` passes; the pop returns the never-written slot 0 and
wraps the stack pointer to 255, and opcode `00EE` returns with `PC = 0`. -/
theorem chip8_stack_pop_empty_returns :
    power_on.registers.SP = 0 ∧
    chip8_is_stack_in_bounds power_on = .ok () ∧
    (∃ s', chip8_stack_pop power_on = .ok (0, s') ∧ s'.registers.SP = 255) ∧
    (∃ s', chip8_exec idle_host power_on 0x00EE = .ok s' ∧
      s'.registers.PC = 0 ∧ s'.registers.SP = 255) :=
  ⟨rfl, rfl, ⟨_, rfl, rfl⟩, ⟨_, rfl, rfl, rfl⟩⟩

/-! ## A key index outside the keyboard (chip8keyboard.c, chip8.c) -/

/-- What `Ex9E` and `ExA1` do with `Vx` of 16 or more: `chip8_keyboard_is_down` has
no guard, so neither fails an assertion; the read is outside the key array. -/
theorem chip8_exec_Ex9E_ExA1_outside (h : host) (s : chip8) (x : Nat) (hx : x < 16)
    (hVx : 16 ≤ s.registers.V x) :
    chip8_exec h s (opcode_of 0xE x 9 0xE) = .error .undefined_behaviour ∧
    chip8_exec h s (opcode_of 0xE x 0xA 1) = .error .undefined_behaviour := by
  have hdown : chip8_keyboard_is_down s.keyboard (s.registers.V x)
      = .error .undefined_behaviour := by
    simp only [chip8_keyboard_is_down, CHIP8_TOTAL_KEYS]
    rw [if_neg (by omega)]
  rw [chip8_exec_family_E h s x 9 0xE hx (by decide) (by decide),
    chip8_exec_family_E h s x 0xA 1 hx (by decide) (by decide)]
  obtain ⟨-, -, -, -, d9, -⟩ :=
    decode_opcode_of 0xE x 9 0xE (by decide) hx (by decide) (by decide)
  obtain ⟨-, -, -, -, dA, -⟩ :=
    decode_opcode_of 0xE x 0xA 1 (by decide) hx (by decide) (by decide)
  unfold chip8_exec_extended_E
  simp only [d9, dA, hdown]
  simp

/-- C15, at `V0 = 16`: opcodes `E09E` and `E0A1` fail no assertion, they read the
key array at index 16, outside it; `chip8_keyboard_down` and `chip8_keyboard_up`
do fail theirs at the same index. -/
theorem chip8_exec_E09E_unguarded :
    (set_V power_on 0 16).registers.V 0 = 16 ∧
    chip8_exec idle_host (set_V power_on 0 16) (opcode_of 0xE 0 9 0xE)
      = .error .undefined_behaviour ∧
    chip8_exec idle_host (set_V power_on 0 16) (opcode_of 0xE 0 0xA 1)
      = .error .undefined_behaviour ∧
    chip8_keyboard_down power_on.keyboard 16 = .error .assertion_failure ∧
    chip8_keyboard_up power_on.keyboard 16 = .error .assertion_failure :=
  ⟨rfl, rfl, rfl, rfl, rfl⟩

/-! ## Reverse subtraction and the shifts (chip8.c, block 0x8000) -/

/-- What opcode `8xy7` does when `Vy` is not the flag register: with `x` and `y`
in 0..14 and the bytes `a` in `Vx` and `b` in `Vy`, it returns with `VF = 1` if
`b > a` and `VF = 0` otherwise, and with `Vx = (b - a) mod 256`. -/
theorem chip8_exec_8xy7_below_flag (h : host) (s : chip8) (x y a b : Nat) (hx : x ≤ 14)
    (hy : y ≤ 14) (hVx : s.registers.V x = a) (hVy : s.registers.V y = b) :
    ∃ s', chip8_exec h s (opcode_of 8 x y 7) = .ok s' ∧
      s'.registers.V 0xf = (if b > a then 1 else 0) ∧
      (s'.registers.V x : Int) = ((b : Int) - a) % 256 := by
  rw [chip8_exec_family_8 h s x y 7 (by omega) (by omega) (by decide)]
  obtain ⟨-, -, -, d4, -, -⟩ :=
    decode_opcode_of 8 x y 7 (by decide) (by omega) (by omega) (by decide)
  unfold chip8_exec_extended_8
  simp only [d4]
  have hxf : x ≠ 15 := by omega
  have hyf : y ≠ 15 := by omega
  refine ⟨_, rfl, ?_, ?_⟩
  · simp [set_V, hVx, hVy, hxf.symm]
  · simp [set_V, hVx, hVy, hxf, hyf, to_uchar]
    omega

/-- C17, at `y = F`: with `V0 = 5` and `VF = 7`, opcode `80F7` writes `VF = 1`
before it reads `VF` as `Vy` for the difference, and leaves `V0 = 252`, which is
`(1 - 5) mod 256`, where `(7 - 5) mod 256` is 2. -/
theorem chip8_exec_80F7_clobbers_operand :
    ∃ s', chip8_exec idle_host (set_V (set_V power_on 0 5) 0xf 7) (opcode_of 8 0 0xf 7) = .ok s' ∧
      (set_V (set_V power_on 0 5) 0xf 7).registers.V 0 = 5 ∧
      (set_V (set_V power_on 0 5) 0xf 7).registers.V 0xf = 7 ∧
      s'.registers.V 0xf = 1 ∧ s'.registers.V 0 = 252 ∧
      ((7 : Int) - 5) % 256 = 2 ∧ ((1 : Int) - 5) % 256 = 252 :=
  ⟨_, rfl, rfl, rfl, rfl, rfl, rfl, rfl⟩

/-- What opcode `8xy8` does: with `x` in 0..14 and the byte `a` in `Vx`, it returns
with `VF = a & 0x80`, which is 128 and not 1 when bit 7 of `a` is set, and with
`Vx = (2 a) mod 256`. -/
theorem chip8_exec_8xy8_flag (h : host) (s : chip8) (x y a : Nat) (hx : x ≤ 14) (hy : y ≤ 15)
    (ha : a < 256) (hVx : s.registers.V x = a) :
    ∃ s', chip8_exec h s (opcode_of 8 x y 8) = .ok s' ∧
      s'.registers.V 0xf = (if a ≥ 128 then 128 else 0) ∧
      s'.registers.V x = (2 * a) % 256 := by
  rw [chip8_exec_family_8 h s x y 8 (by omega) (by omega) (by decide)]
  obtain ⟨-, -, -, d4, -, -⟩ :=
    decode_opcode_of 8 x y 8 (by decide) (by omega) (by omega) (by decide)
  unfold chip8_exec_extended_8
  simp only [d4]
  have hxf : x ≠ 15 := by omega
  have hmask : a &&& 0x80 = (if a ≥ 128 then 128 else 0) := by
    have := and_shifted_mask a 1 7
    have e : ((2 ^ 1 - 1) <<< 7 : Nat) = 0x80 := by decide
    rw [e] at this
    rw [this]
    split <;> omega
  refine ⟨_, rfl, ?_, ?_⟩
  · simp only [set_V, hVx, hmask]
    simp [hxf.symm]
  · simp [set_V, hVx, hxf, to_uchar]
    omega

/-- C18, at `V0 = 0x81`: opcode `8018` leaves `VF = 128`, the masked bit itself and
not the flag value 1, and `V0 = 2`. -/
theorem chip8_exec_8018_flag_is_mask :
    ∃ s', chip8_exec idle_host (set_V power_on 0 0x81) (opcode_of 8 0 1 8) = .ok s' ∧
      (set_V power_on 0 0x81).registers.V 0 = 0x81 ∧
      s'.registers.V 0xf = 128 ∧ s'.registers.V 0 = 2 ∧ (2 * 0x81) % 256 = 2 :=
  ⟨_, rfl, rfl, rfl, rfl, rfl⟩

/-- C19: with `x` in 0..14, any `y` and the value `a` in `Vx`, opcode `8xy6` returns
with `VF = a mod 2` and `Vx = a div 2`, whatever `Vy` holds, so that
`2 Vx + VF = a`. -/
theorem chip8_exec_8xy6 (h : host) (s : chip8) (x y a : Nat) (hx : x ≤ 14) (hy : y ≤ 15)
    (hVx : s.registers.V x = a) :
    ∃ s', chip8_exec h s (opcode_of 8 x y 6) = .ok s' ∧
      s'.registers.V 0xf = a % 2 ∧ s'.registers.V x = a / 2 ∧
      2 * s'.registers.V x + s'.registers.V 0xf = a := by
  rw [chip8_exec_family_8 h s x y 6 (by omega) (by omega) (by decide)]
  obtain ⟨-, -, -, d4, -, -⟩ :=
    decode_opcode_of 8 x y 6 (by decide) (by omega) (by omega) (by decide)
  unfold chip8_exec_extended_8
  simp only [d4]
  have hxf : x ≠ 15 := by omega
  have hmask : a &&& 0x01 = a % 2 := Nat.and_pow_two_sub_one_eq_mod a 1
  have e1 : (set_V (set_V s 0xf (s.registers.V x &&& 0x01)) x
      ((set_V s 0xf (s.registers.V x &&& 0x01)).registers.V x / 2)).registers.V 0xf = a % 2 := by
    simp only [set_V, hVx, hmask]
    simp [hxf.symm]
  have e2 : (set_V (set_V s 0xf (s.registers.V x &&& 0x01)) x
      ((set_V s 0xf (s.registers.V x &&& 0x01)).registers.V x / 2)).registers.V x = a / 2 := by
    simp [set_V, hVx, hxf]
  refine ⟨_, by simp, e1, e2, ?_⟩
  rw [e1, e2]
  omega

/-- The statement of C19 at `V0 = 7`, with `y = 1` and `V1 = 200`: opcode `8016`
leaves `VF = 1` and `V0 = 3`. -/
theorem chip8_exec_8xy6_witness :
    ∃ s', chip8_exec idle_host (set_V (set_V power_on 0 7) 1 200) (opcode_of 8 0 1 6) = .ok s' ∧
      s'.registers.V 0xf = 7 % 2 ∧ s'.registers.V 0 = 7 / 2 ∧
      2 * s'.registers.V 0 + s'.registers.V 0xf = 7 :=
  chip8_exec_8xy6 idle_host (set_V (set_V power_on 0 7) 1 200) 0 1 7
    (by decide) (by decide) (by decide)

/-! ## Opcodes with a low byte -/

theorem opcode_xkk_eq (a x kk : Nat) :
    opcode_xkk a x kk = opcode_of a x (kk / 16) (kk % 16) := by
  unfold opcode_xkk opcode_of
  omega

/-- The fields the interpreter extracts from `opcode_xkk a x kk`. -/
theorem decode_opcode_xkk (a x kk : Nat) (ha : a < 16) (hx : x < 16) (hkk : kk < 256) :
    opcode_xkk a x kk &&& 0xf000 = 0x1000 * a ∧
    (opcode_xkk a x kk &&& 0x0f00) >>> 8 = x ∧
    opcode_xkk a x kk &&& 0x00ff = kk := by
  rw [and_f000, and_0f00_shift, and_00ff]
  unfold opcode_xkk
  omega

/-! ## Unrecognized selectors (chip8.c) -/

/-- C13: in the families 0, 8, E and F an opcode with an unrecognized selector
returns with the whole state as it was: `0nnn` other than `00E0` and `00EE`, `8xyN`
with `N` in 9..F, `Exkk` with `kk` neither 9E nor A1, and `Fxkk` with `kk` none of
07, 0A, 15, 18, 1E, 29, 33, 55, 65. -/
theorem chip8_exec_unrecognized_selector (h : host) (s : chip8) :
    (∀ nnn, nnn < 0x1000 → nnn ≠ 0x0E0 → nnn ≠ 0x0EE → chip8_exec h s nnn = .ok s) ∧
    (∀ x y N, x < 16 → y < 16 → 9 ≤ N → N ≤ 15 →
      chip8_exec h s (opcode_of 8 x y N) = .ok s) ∧
    (∀ x kk, x < 16 → kk < 256 → kk ≠ 0x9E → kk ≠ 0xA1 →
      chip8_exec h s (opcode_xkk 0xE x kk) = .ok s) ∧
    (∀ x kk, x < 16 → kk < 256 →
      kk ∉ [0x07, 0x0A, 0x15, 0x18, 0x1E, 0x29, 0x33, 0x55, 0x65] →
      chip8_exec h s (opcode_xkk 0xF x kk) = .ok s) := by
  refine ⟨?_, ?_, ?_, ?_⟩
  · intro nnn hn h1 h2
    have d : nnn &&& 0xf000 = 0 := by rw [and_f000]; omega
    unfold chip8_exec
    rw [if_neg h1, if_neg h2]
    unfold chip8_exec_extended
    dsimp only
    rw [d]
    simp
  · intro x y N hx hy h9 h15
    rw [chip8_exec_family_8 h s x y N hx hy (by omega)]
    obtain ⟨-, -, -, d4, -, -⟩ := decode_opcode_of 8 x y N (by decide) hx hy (by omega)
    unfold chip8_exec_extended_8
    dsimp only
    rw [d4]
    interval_cases N <;> simp
  · intro x kk hx hkk h1 h2
    obtain ⟨-, -, d⟩ := decode_opcode_xkk 0xE x kk (by decide) hx hkk
    have hfam := chip8_exec_family_E h s x (kk / 16) (kk % 16) hx (by omega) (by omega)
    rw [← opcode_xkk_eq] at hfam
    rw [hfam]
    unfold chip8_exec_extended_E
    dsimp only
    rw [d, if_neg h1, if_neg h2]
  · intro x kk hx hkk hnot
    simp only [List.mem_cons, List.mem_singleton, not_or] at hnot
    obtain ⟨h1, h2, h3, h4, h5, h6, h7, h8, h9, -⟩ := hnot
    obtain ⟨-, -, d⟩ := decode_opcode_xkk 0xF x kk (by decide) hx hkk
    have hfam := chip8_exec_family_F h s x (kk / 16) (kk % 16) hx (by omega) (by omega)
    rw [← opcode_xkk_eq] at hfam
    rw [hfam]
    unfold chip8_exec_extended_F
    dsimp only
    rw [d, if_neg h1, if_neg h2, if_neg h3, if_neg h4, if_neg h5, if_neg h6, if_neg h7,
      if_neg h8, if_neg h9]

/-! ## Skips on the registers (chip8.c) -/

/-- C20: `3xkk` skips when `Vx = kk`, `4xkk` when `Vx ≠ kk`, `5xy0` when `Vx = Vy`
and `9xy0` when `Vx ≠ Vy`; an opcode that skips returns with `PC` at
`(PC + 2) mod 2^16`, which is never the old `PC`, and with nothing else changed; one
that does not skip returns with the state as it was; so of each pair exactly one
skips. -/
theorem chip8_exec_skips (h : host) (s : chip8) (x y kk : Nat) (hx : x < 16) (hy : y < 16)
    (hkk : kk < 256) :
    chip8_exec h s (opcode_xkk 3 x kk) = .ok (if s.registers.V x = kk then skip s else s) ∧
    chip8_exec h s (opcode_xkk 4 x kk) = .ok (if s.registers.V x ≠ kk then skip s else s) ∧
    chip8_exec h s (opcode_of 5 x y 0)
      = .ok (if s.registers.V x = s.registers.V y then skip s else s) ∧
    chip8_exec h s (opcode_of 9 x y 0)
      = .ok (if s.registers.V x ≠ s.registers.V y then skip s else s) ∧
    skip s = { s with registers := { s.registers with PC := (s.registers.PC + 2) % 65536 } } ∧
    (skip s).registers.PC ≠ s.registers.PC := by
  have hskip : skip s
      = { s with registers := { s.registers with PC := (s.registers.PC + 2) % 65536 } } := by
    have : to_ushort ((s.registers.PC : Int) + 2) = (s.registers.PC + 2) % 65536 := by
      unfold to_ushort; omega
    simp only [skip, set_PC, this]
  refine ⟨?_, ?_, ?_, ?_, hskip, ?_⟩
  · obtain ⟨d1, d2, d3⟩ := decode_opcode_xkk 3 x kk (by decide) hx hkk
    have hop : 0x3000 ≤ opcode_xkk 3 x kk := by unfold opcode_xkk; omega
    unfold chip8_exec
    rw [if_neg (by omega), if_neg (by omega)]
    unfold chip8_exec_extended
    dsimp only
    rw [d1, d2, d3]
    simp
  · obtain ⟨d1, d2, d3⟩ := decode_opcode_xkk 4 x kk (by decide) hx hkk
    have hop : 0x4000 ≤ opcode_xkk 4 x kk := by unfold opcode_xkk; omega
    unfold chip8_exec
    rw [if_neg (by omega), if_neg (by omega)]
    unfold chip8_exec_extended
    dsimp only
    rw [d1, d2, d3]
    simp
  · obtain ⟨d1, d2, d3, -, -, -⟩ := decode_opcode_of 5 x y 0 (by decide) hx hy (by decide)
    have hop : 0x5000 ≤ opcode_of 5 x y 0 := by unfold opcode_of; omega
    unfold chip8_exec
    rw [if_neg (by omega), if_neg (by omega)]
    unfold chip8_exec_extended
    dsimp only
    rw [d1, d2, d3]
    simp
  · obtain ⟨d1, d2, d3, -, -, -⟩ := decode_opcode_of 9 x y 0 (by decide) hx hy (by decide)
    have hop : 0x9000 ≤ opcode_of 9 x y 0 := by unfold opcode_of; omega
    unfold chip8_exec
    rw [if_neg (by omega), if_neg (by omega)]
    unfold chip8_exec_extended
    dsimp only
    rw [d1, d2, d3]
    simp
  · rw [hskip]
    show (s.registers.PC + 2) % 65536 ≠ s.registers.PC
    omega

/-- The statement of C20 at `V0 = 7`, `V1 = 0`, `kk = 7` and `PC = 0xFFFF`: `3007`
and `9010` skip, to `PC = 1`, and `4007` and `5010` do not. -/
theorem chip8_exec_skips_witness :
    chip8_exec idle_host (set_PC (set_V power_on 0 7) 0xFFFF) (opcode_xkk 3 0 7)
      = .ok (skip (set_PC (set_V power_on 0 7) 0xFFFF)) ∧
    chip8_exec idle_host (set_PC (set_V power_on 0 7) 0xFFFF) (opcode_xkk 4 0 7)
      = .ok (set_PC (set_V power_on 0 7) 0xFFFF) ∧
    chip8_exec idle_host (set_PC (set_V power_on 0 7) 0xFFFF) (opcode_of 5 0 1 0)
      = .ok (set_PC (set_V power_on 0 7) 0xFFFF) ∧
    chip8_exec idle_host (set_PC (set_V power_on 0 7) 0xFFFF) (opcode_of 9 0 1 0)
      = .ok (skip (set_PC (set_V power_on 0 7) 0xFFFF)) ∧
    (skip (set_PC (set_V power_on 0 7) 0xFFFF)).registers.PC = 1 := by
  obtain ⟨h3, h4, h5, h9, -, -⟩ :=
    chip8_exec_skips idle_host (set_PC (set_V power_on 0 7) 0xFFFF) 0 1 7
      (by decide) (by decide) (by decide)
  exact ⟨h3, h4, h5, h9, rfl⟩

/-! ## A draw wraps at the edges (chip8screen.c) -/

/-- C14: for a sprite of `n ≤ 32` rows drawn at any `(x, y)` on any screen, a pixel
is flipped if a 1-bit of the sprite addresses it, modulo 32 in the rows and 64 in
the columns, and keeps its value if none does; every addressed pixel is on the
screen; and the flag returned is true if and only if an addressed pixel was set
before the draw. -/
theorem chip8_screen_draw_sprite_wraps (screen : chip8_screen) (x y : Nat)
    (sprite : Nat → Nat) (n : Nat) (hn : n ≤ 32) :
    (∀ py px,
      (sprite_addresses x y sprite n py px →
        (chip8_screen_draw_sprite screen x y sprite n).1.pixels py px
          = xor (screen.pixels py px) true) ∧
      (¬ sprite_addresses x y sprite n py px →
        (chip8_screen_draw_sprite screen x y sprite n).1.pixels py px
          = xor (screen.pixels py px) false)) ∧
    (∀ py px, sprite_addresses x y sprite n py px → py < 32 ∧ px < 64) ∧
    ((chip8_screen_draw_sprite screen x y sprite n).2 = true ↔
      ∃ py px, sprite_addresses x y sprite n py px ∧ screen.pixels py px = true) := by
  obtain ⟨hp, hc⟩ := draw_sprite_effect screen x y sprite n hn
  refine ⟨?_, ?_, ?_⟩
  · intro py px
    constructor
    · intro hadr
      rw [hp, decide_eq_true ((mem_sprite_cells x y sprite n py px).mpr hadr)]
    · intro hadr
      rw [hp, decide_eq_false (fun hmem => hadr ((mem_sprite_cells x y sprite n py px).mp hmem))]
  · rintro py px ⟨row, -, col, -, -, h1, h2⟩
    unfold CHIP8_HEIGHT at h1
    unfold CHIP8_WIDTH at h2
    omega
  · rw [hc]
    constructor
    · rintro ⟨py, px, hmem, hset⟩
      exact ⟨py, px, (mem_sprite_cells x y sprite n py px).mp hmem, hset⟩
    · rintro ⟨py, px, hadr, hset⟩
      exact ⟨py, px, (mem_sprite_cells x y sprite n py px).mpr hadr, hset⟩

/-- The statement of C14 at the two-row sprite `0xFF`, `0xFF` drawn at `(62, 31)`
on the screen `chip8_init` leaves: bit 4 of the second row wraps to row 0,
column 1, which is flipped to set and lies on the screen. -/
theorem chip8_screen_draw_sprite_wraps_witness :
    (chip8_screen_draw_sprite power_on.screen 62 31 (fun _ => 0xFF) 2).1.pixels 0 1
      = xor (power_on.screen.pixels 0 1) true ∧ (0 < 32 ∧ 1 < 64) := by
  have hadr : sprite_addresses 62 31 (fun _ => 0xFF) 2 0 1 :=
    ⟨1, by decide, 3, by decide, by decide, by decide, by decide⟩
  obtain ⟨h1, h2, -⟩ :=
    chip8_screen_draw_sprite_wraps power_on.screen 62 31 (fun _ => 0xFF) 2 (by decide)
  exact ⟨(h1 0 1).1 hadr, h2 0 1 hadr⟩

/-! ## The state after initialization and load (chip8.c) -/

/-- C16: `chip8_load` after `chip8_init` returns for every size below 3584; and
whenever it returns, the `S` bytes of the buffer are in the memory from 0x200 on,
the 16 glyphs of 5 bytes of the character set are at the addresses 0..79, every
other memory byte is 0, the registers `V0..VF`, `I`, `SP` and the two timers are
0, every stack slot is 0, no key is down and no pixel is set, and `PC = 0x200`. -/
theorem chip8_init_load (s0 : chip8) (buffer : Nat → Nat) (S : Nat) :
    (S < 3584 → ∃ s', chip8_load (chip8_init s0) buffer S = .ok s') ∧
    (∀ s', chip8_load (chip8_init s0) buffer S = .ok s' →
      (∀ i, i < S → s'.memory.memory (0x200 + i) = buffer i) ∧
      chip8_default_character_set.length = 16 * 5 ∧
      (∀ d r, d < 16 → r < 5 →
        s'.memory.memory (5 * d + r) = chip8_default_character_set.getD (5 * d + r) 0) ∧
      (∀ i, 80 ≤ i → ¬ (0x200 ≤ i ∧ i < 0x200 + S) → s'.memory.memory i = 0) ∧
      (∀ i, s'.registers.V i = 0) ∧ s'.registers.I = 0 ∧ s'.registers.SP = 0 ∧
      s'.registers.delay_timer = 0 ∧ s'.registers.sound_timer = 0 ∧
      (∀ i, s'.stack.stack i = 0) ∧ (∀ i, s'.keyboard.keyboard i = false) ∧
      (∀ i j, s'.screen.pixels i j = false) ∧ s'.registers.PC = 0x200) := by
  constructor
  · intro hS
    exact ((chip8_load_fault_iff (chip8_init s0) buffer S
      (by unfold CHIP8_PROGRAM_LOAD_ADDRESS SIZE_T_MODULUS; omega)).2 hS).imp
      (fun _ hs => hs.1)
  · intro s' hs'
    unfold chip8_load at hs'
    by_cases hc1 : (CHIP8_PROGRAM_LOAD_ADDRESS + S) % SIZE_T_MODULUS < CHIP8_MEMORY_SIZE
    · by_cases hc2 : CHIP8_PROGRAM_LOAD_ADDRESS + S ≤ CHIP8_MEMORY_SIZE
      · rw [if_pos hc1, if_pos hc2] at hs'
        injection hs' with hs'
        subst hs'
        unfold CHIP8_PROGRAM_LOAD_ADDRESS at *
        refine ⟨?_, rfl, ?_, ?_, ?_, rfl, rfl, rfl, rfl, ?_, ?_, ?_, rfl⟩
        · intro i hi
          simp [hi]
        · intro d r hd hr
          have hlt : ¬ (0x200 ≤ 5 * d + r) := by omega
          simp [chip8_init, hlt]
        · intro i h80 hout
          have hlen : chip8_default_character_set.length ≤ i := h80
          simp only [chip8_init, if_neg hout]
          simp [List.getElem?_eq_none hlen]
        · intro i
          rfl
        · intro i
          rfl
        · intro i
          rfl
        · intro i j
          rfl
      · rw [if_pos hc1, if_neg hc2] at hs'
        cases hs'
    · rw [if_neg hc1] at hs'
      cases hs'

/-! ## The mapping of host keys (chip8keyboard.c, main.c) -/

theorem to_char_range (v : Int) : -128 ≤ to_char v ∧ to_char v ≤ 127 := by
  unfold to_char
  omega

theorem to_char_of_char (v : Int) (h0 : -128 ≤ v) (h1 : v ≤ 127) : to_char v = v := by
  unfold to_char
  omega

theorem to_char_idem (v : Int) : to_char (to_char v) = to_char v :=
  to_char_of_char _ (to_char_range v).1 (to_char_range v).2

/-- C22: in a state whose memory below address 80 is as `chip8_init` left it, with
a digit `d` in 0..15 in `Vx`, opcode `Fx29` returns with `I = 5 d` and nothing else
changed; the five bytes at `I`, ..., `I + 4` are the five bytes of glyph `d` of the
default character set, and `I + 4 ≤ 79`. -/
theorem chip8_exec_Fx29 (h : host) (s0 s : chip8) (x d : Nat) (hx : x < 16) (hd : d < 16)
    (hVx : s.registers.V x = d)
    (hfont : ∀ i, i < 80 → s.memory.memory i = (chip8_init s0).memory.memory i) :
    ∃ s', chip8_exec h s (opcode_xkk 0xF x 0x29) = .ok s' ∧
      s' = set_I s (5 * d) ∧ s'.registers.I = 5 * d ∧
      (∀ r, r < 5 →
        s'.memory.memory (s'.registers.I + r)
          = (chip8_default_character_set.drop (5 * d)).getD r 0) ∧
      ((chip8_default_character_set.drop (5 * d)).take 5).length = 5 ∧
      s'.registers.I + 4 ≤ 79 := by
  obtain ⟨-, -, dkk⟩ := decode_opcode_xkk 0xF x 0x29 (by decide) hx (by decide)
  have hfam := chip8_exec_family_F h s x (0x29 / 16) (0x29 % 16) hx (by decide) (by decide)
  rw [← opcode_xkk_eq] at hfam
  have hI : to_ushort ((d : Int) * (CHIP8_DEFAULT_SPRITE_HEIGHT : Nat)) = 5 * d := by
    unfold to_ushort CHIP8_DEFAULT_SPRITE_HEIGHT
    omega
  have hexec : chip8_exec h s (opcode_xkk 0xF x 0x29) = .ok (set_I s (5 * d)) := by
    rw [hfam]
    unfold chip8_exec_extended_F
    dsimp only
    rw [dkk, hVx, hI]
    rw [if_neg (by decide), if_neg (by decide), if_neg (by decide), if_neg (by decide),
      if_neg (by decide), if_pos (by decide)]
  refine ⟨_, hexec, rfl, rfl, ?_, ?_, ?_⟩
  · intro r hr
    have hlt : 5 * d + r < 80 := by omega
    show s.memory.memory (5 * d + r) = _
    rw [hfont _ hlt]
    simp [chip8_init, List.getD_eq_getElem?_getD, List.getElem?_drop]
  · have hlen : chip8_default_character_set.length = 80 := rfl
    simp only [List.length_take, List.length_drop, hlen]
    omega
  · show 5 * d + 4 ≤ 79
    omega

/-- The statement of C22 at the state `chip8_init` leaves with `V0 = 0xA`: opcode
`F029` gives `I = 50`, where the memory holds `F0 90 F0 90 90`, the glyph of `A`. -/
theorem chip8_exec_Fx29_witness :
    ∃ s', chip8_exec idle_host (set_V power_on 0 0xA) (opcode_xkk 0xF 0 0x29) = .ok s' ∧
      s'.registers.I = 50 ∧
      (List.range 5).map (fun r => s'.memory.memory (s'.registers.I + r))
        = [0xf0, 0x90, 0xf0, 0x90, 0x90] := by
  obtain ⟨s', h1, h2, -⟩ :=
    chip8_exec_Fx29 idle_host power_on (set_V power_on 0 0xA) 0 0xA (by decide) (by decide)
      rfl (fun _ _ => rfl)
  refine ⟨s', h1, by rw [h2]; rfl, ?_⟩
  rw [h2]
  rfl

/-! ## Block store and block load (chip8.c, block 0xF000) -/

section loops

attribute [local irreducible] chip8_is_memory_in_bounds

theorem store_registers_zero (s : chip8) (i : Nat) : store_registers s i 0 = .ok s := rfl

theorem store_registers_succ (s : chip8) (i fuel : Nat) :
    store_registers s i (fuel + 1) =
      (match chip8_memory_set s.memory ((s.registers.I : Int) + i) (s.registers.V i) with
      | .error e => (.error e : Except chip8_error chip8)
      | .ok m => store_registers { s with memory := m } (i + 1) fuel) := rfl

theorem load_registers_zero (s : chip8) (i : Nat) : load_registers s i 0 = .ok s := rfl

theorem load_registers_succ (s : chip8) (i fuel : Nat) :
    load_registers s i (fuel + 1) =
      (match chip8_memory_get s.memory ((s.registers.I : Int) + i) with
      | .error e => (.error e : Except chip8_error chip8)
      | .ok v => load_registers (set_V s i v) (i + 1) fuel) := rfl

end loops

/-- The store loop started at register `i` with `fuel` registers left, all of
whose addresses are in the memory, returns with the registers `i`, ...,
`i + fuel - 1` at the addresses `I + i`, ..., `I + i + fuel - 1` and nothing else
changed. -/
theorem store_registers_ok (fuel : Nat) (s : chip8) (i : Nat)
    (hI : s.registers.I + i + fuel ≤ 4096) :
    store_registers s i fuel = .ok { s with memory := ⟨fun a =>
      if s.registers.I + i ≤ a ∧ a < s.registers.I + i + fuel
      then s.registers.V (a - s.registers.I) else s.memory.memory a⟩ } := by
  induction fuel generalizing s i with
  | zero =>
    rw [store_registers_zero]
    congr 1
    have : (fun a => if s.registers.I + i ≤ a ∧ a < s.registers.I + i + 0
        then s.registers.V (a - s.registers.I) else s.memory.memory a) = s.memory.memory := by
      funext a
      rw [if_neg (by omega)]
    rw [this]
  | succ fuel ih =>
    rw [store_registers_succ, chip8_memory_set_ok _ _ _ ⟨by omega, by omega⟩]
    dsimp only
    rw [ih _ (i + 1) (by dsimp only; omega)]
    have e : ((s.registers.I : Int) + (i : Int)).toNat = s.registers.I + i := by omega
    have hfun : (fun a => if s.registers.I + (i + 1) ≤ a ∧ a < s.registers.I + (i + 1) + fuel
        then s.registers.V (a - s.registers.I)
        else if a = ((s.registers.I : Int) + (i : Int)).toNat then s.registers.V i
          else s.memory.memory a)
        = (fun a => if s.registers.I + i ≤ a ∧ a < s.registers.I + i + (fuel + 1)
          then s.registers.V (a - s.registers.I) else s.memory.memory a) := by
      funext a
      rw [e]
      by_cases h1 : a = s.registers.I + i
      · subst h1
        rw [if_neg (by omega), if_pos rfl, if_pos (by omega)]
        congr 1
        omega
      · by_cases h2 : s.registers.I + (i + 1) ≤ a ∧ a < s.registers.I + (i + 1) + fuel
        · rw [if_pos h2, if_pos (by omega)]
        · rw [if_neg h2, if_neg h1, if_neg (by omega)]
    dsimp only
    rw [hfun]

/-- The load loop started at register `i` with `fuel` registers left, all of whose
addresses are in the memory, returns with the registers `i`, ..., `i + fuel - 1`
read from the addresses `I + i`, ..., `I + i + fuel - 1` and nothing else
changed. -/
theorem load_registers_ok (fuel : Nat) (s : chip8) (i : Nat)
    (hI : s.registers.I + i + fuel ≤ 4096) :
    load_registers s i fuel = .ok (set_regs_V s (fun j =>
      if i ≤ j ∧ j < i + fuel then s.memory.memory (s.registers.I + j)
      else s.registers.V j)) := by
  induction fuel generalizing s i with
  | zero =>
    rw [load_registers_zero]
    congr 1
    have : (fun j => if i ≤ j ∧ j < i + 0 then s.memory.memory (s.registers.I + j)
        else s.registers.V j) = s.registers.V := by
      funext j
      rw [if_neg (by omega)]
    unfold set_regs_V
    rw [this]
  | succ fuel ih =>
    rw [load_registers_succ, chip8_memory_get_ok _ _ ⟨by omega, by omega⟩]
    dsimp only
    rw [ih _ (i + 1) (by simp only [set_V]; omega)]
    have e : ((s.registers.I : Int) + (i : Int)).toNat = s.registers.I + i := by omega
    have hfun : (fun j => if i + 1 ≤ j ∧ j < i + 1 + fuel
        then s.memory.memory (s.registers.I + j)
        else if j = i then s.memory.memory ((s.registers.I : Int) + (i : Int)).toNat
          else s.registers.V j)
        = (fun j => if i ≤ j ∧ j < i + (fuel + 1) then s.memory.memory (s.registers.I + j)
          else s.registers.V j) := by
      funext j
      rw [e]
      by_cases h1 : j = i
      · subst h1
        rw [if_neg (by omega), if_pos rfl, if_pos (by omega)]
      · by_cases h2 : i + 1 ≤ j ∧ j < i + 1 + fuel
        · rw [if_pos h2, if_pos (by omega)]
        · rw [if_neg h2, if_neg h1, if_neg (by omega)]
    simp only [set_V, set_regs_V]
    rw [hfun]

theorem chip8_exec_Fx55_eq (h : host) (s : chip8) (x : Nat) (hx : x < 16) :
    chip8_exec h s (opcode_xkk 0xF x 0x55) = store_registers s 0 (x + 1) := by
  obtain ⟨-, -, dkk⟩ := decode_opcode_xkk 0xF x 0x55 (by decide) hx (by decide)
  have hfam := chip8_exec_family_F h s x (0x55 / 16) (0x55 % 16) hx (by decide) (by decide)
  rw [← opcode_xkk_eq] at hfam
  rw [hfam]
  unfold chip8_exec_extended_F
  dsimp only
  rw [dkk]
  rw [if_neg (by decide), if_neg (by decide), if_neg (by decide), if_neg (by decide),
    if_neg (by decide), if_neg (by decide), if_neg (by decide), if_pos (by decide)]

theorem chip8_exec_Fx65_eq (h : host) (s : chip8) (x : Nat) (hx : x < 16) :
    chip8_exec h s (opcode_xkk 0xF x 0x65) = load_registers s 0 (x + 1) := by
  obtain ⟨-, -, dkk⟩ := decode_opcode_xkk 0xF x 0x65 (by decide) hx (by decide)
  have hfam := chip8_exec_family_F h s x (0x65 / 16) (0x65 % 16) hx (by decide) (by decide)
  rw [← opcode_xkk_eq] at hfam
  rw [hfam]
  unfold chip8_exec_extended_F
  dsimp only
  rw [dkk]
  rw [if_neg (by decide), if_neg (by decide), if_neg (by decide), if_neg (by decide),
    if_neg (by decide), if_neg (by decide), if_neg (by decide), if_neg (by decide),
    if_pos (by decide)]

/-- C21: with `I + x < 4096`, opcode `Fx55` returns with `Vi` at `Memory[I + i]` for
every `i` in 0..x and with every other memory byte, every register, the stack, the
keyboard and the screen unchanged; and whatever then overwrites the registers
`V0..VF`, opcode `Fx65` with the same `x` and `I` returns with `V0..Vx` at the
values they had when `Fx55` ran and with the registers above `x`, `I`, the memory
and everything else as the overwrite left them. -/
theorem chip8_exec_Fx55_Fx65 (h : host) (s : chip8) (x : Nat) (hx : x < 16)
    (hI : s.registers.I + x < 4096) :
    ∃ s1, chip8_exec h s (opcode_xkk 0xF x 0x55) = .ok s1 ∧
      (∀ i, i ≤ x → s1.memory.memory (s.registers.I + i) = s.registers.V i) ∧
      (∀ a, ¬ (s.registers.I ≤ a ∧ a ≤ s.registers.I + x) →
        s1.memory.memory a = s.memory.memory a) ∧
      s1.registers = s.registers ∧ s1.stack = s.stack ∧ s1.keyboard = s.keyboard ∧
      s1.screen = s.screen ∧
      ∀ V' : Nat → Nat, ∃ s2,
        chip8_exec h (set_regs_V s1 V') (opcode_xkk 0xF x 0x65) = .ok s2 ∧
        (∀ i, i ≤ x → s2.registers.V i = s.registers.V i) ∧
        (∀ i, x < i → s2.registers.V i = V' i) ∧
        s2.registers.I = s.registers.I ∧ s2.memory = s1.memory ∧
        s2 = set_regs_V s1 (fun i => if i ≤ x then s.registers.V i else V' i) := by
  have hstore := store_registers_ok (x + 1) s 0 (by omega)
  rw [← chip8_exec_Fx55_eq h s x hx] at hstore
  refine ⟨_, hstore, ?_, ?_, rfl, rfl, rfl, rfl, ?_⟩
  · intro i hi
    dsimp only
    rw [if_pos (by omega)]
    congr 1
    omega
  · intro a ha
    dsimp only
    rw [if_neg (by omega)]
  · intro V'
    have hload := load_registers_ok (x + 1) (set_regs_V
      { s with memory := ⟨fun a =>
        if s.registers.I + 0 ≤ a ∧ a < s.registers.I + 0 + (x + 1)
        then s.registers.V (a - s.registers.I) else s.memory.memory a⟩ } V') 0
      (by simp only [set_regs_V]; omega)
    rw [← chip8_exec_Fx65_eq h _ x hx] at hload
    have hV : (fun j => if 0 ≤ j ∧ j < 0 + (x + 1)
        then (if s.registers.I + 0 ≤ s.registers.I + j ∧
            s.registers.I + j < s.registers.I + 0 + (x + 1)
          then s.registers.V (s.registers.I + j - s.registers.I)
          else s.memory.memory (s.registers.I + j))
        else V' j)
        = (fun i => if i ≤ x then s.registers.V i else V' i) := by
      funext j
      by_cases hj : j ≤ x
      · rw [if_pos (by omega), if_pos (by omega), if_pos hj]
        congr 1
        omega
      · rw [if_neg (by omega), if_neg hj]
    simp only [set_regs_V] at hload ⊢
    rw [hV] at hload
    refine ⟨_, hload, ?_, ?_, rfl, rfl, rfl⟩
    · intro i hi
      dsimp only
      rw [if_pos hi]
    · intro i hi
      dsimp only
      rw [if_neg (by omega)]

/-- The statement of C21 at the state `chip8_init` leaves with `V0 = 7`, `V1 = 9`
and `I = 0x300`, for `x = 1`: `F155` stores 7 and 9 at 0x300 and 0x301, and after
the registers are all set to 0xFF, `F165` brings `V0 = 7` and `V1 = 9` back and
leaves `V2 = 0xFF`. -/
theorem chip8_exec_Fx55_Fx65_witness :
    ∃ s1, chip8_exec idle_host (set_I (set_V (set_V power_on 0 7) 1 9) 0x300)
        (opcode_xkk 0xF 1 0x55) = .ok s1 ∧
      s1.memory.memory 0x300 = 7 ∧ s1.memory.memory 0x301 = 9 ∧
      ∃ s2, chip8_exec idle_host (set_regs_V s1 (fun _ => 0xFF)) (opcode_xkk 0xF 1 0x65) = .ok s2 ∧
        s2.registers.V 0 = 7 ∧ s2.registers.V 1 = 9 ∧ s2.registers.V 2 = 0xFF := by
  obtain ⟨s1, h1, h2, -, -, -, -, -, h3⟩ :=
    chip8_exec_Fx55_Fx65 idle_host (set_I (set_V (set_V power_on 0 7) 1 9) 0x300) 1
      (by decide) (by decide)
  obtain ⟨s2, h4, h5, h6, -⟩ := h3 (fun _ => 0xFF)
  exact ⟨s1, h1, h2 0 (by decide), h2 1 (by decide), s2, h4, h5 0 (by decide),
    h5 1 (by decide), h6 2 (by decide)⟩

end Chip8
